import Mathlib

/-!
# dstate: the guild state cache

A shallow embedding of `dstate/guildstate.go`.  The aggregate `GuildState` is an
in-memory cache of one guild, mutated by the entry points `GuildUpdate`,
`MemberAddUpdate`, `ChannelAddUpdate`, `VoiceStateUpdate`, `MessageAddUpdate`, ...

Modelling conventions.

* Every entry point takes the `lock` flag of the source.  The embedded
  `sync.RWMutex` is explicit state (`GuildState.mu`); acquiring it while it cannot
  be granted is the fault `Fault.deadlock`, a run-time panic is `Fault.panic`.
  Entry points therefore return `Except Fault _`.
* Go maps are total functions into `Option`; a slice that the source tests
  against `nil` is an `Option (List _)` (`none` is the nil slice, `some []` the
  empty non-nil slice); a pointer that the source tests against `nil` is an
  `Option`.  Pointers that the source dereferences without a test are plain values.
* Records are held by value: an entry stored in the aggregate is the value of the
  record at the time it was stored or last patched.  The source stores pointers: the
  keyed entries that `NewGuildState` creates share their records with the elements of
  the snapshot's embedded lists `Guild.Members`, `Guild.Channels`, `Guild.Presences`,
  so the in-place patches of `MemberAddUpdate`, `PresenceAddUpdate` and
  `ChannelAddUpdate` also show through these three lists.  The model does not follow
  this sharing: its `Guild` field keeps the three lists as last supplied by
  `NewGuildState` or `GuildUpdate`, and the properties of the patches are stated on
  the keyed collections `Members` and `Channels` only.
* `time.Now()` is the explicit argument `now`; the timestamp parser used by
  `ParseTimes` is the explicit argument `parse`.
-/

set_option autoImplicit false

namespace Dstate

/-! ## Run-time model: time, slices, maps, the mutex -/

/-- An instant (`time.Time`), in nanoseconds relative to the zero instant. -/
abbrev Time := Int

/-- A `time.Duration`: a signed count of nanoseconds. -/
abbrev Duration := Int

/-- The smallest `time.Duration` (`math.MinInt64`). -/
def minDuration : Duration := -(2 ^ 63)

/-- The largest `time.Duration` (`math.MaxInt64`). -/
def maxDuration : Duration := 2 ^ 63 - 1

/-- The test `t.IsZero()`: whether `t` is the zero instant. -/
def Time.IsZero (t : Time) : Bool := t == 0

/-- The duration `t.Sub(u)`: `t - u`, saturated to the range of `time.Duration`. -/
def Time.Sub (t u : Time) : Duration :=
  if t - u < minDuration then minDuration
  else if maxDuration < t - u then maxDuration
  else t - u

/-- A Go slice whose nil-ness is observable: `none` is `nil`. -/
abbrev Slice (α : Type) := Option (List α)

/-- The elements of a slice, in order (`range s`); the nil slice has none. -/
def Slice.toList {α : Type} : Slice α → List α
  | none => []
  | some l => l

/-- The slice `append(s, a)`; the result is never nil. -/
def Slice.append {α : Type} (s : Slice α) (a : α) : Slice α :=
  some (Slice.toList s ++ [a])

/-- Index of the first element satisfying `p`: the index at which a loop
`for i, v := range s { if p(v) { ...; return } }` takes its branch. -/
def firstIdx {α : Type} (p : α → Bool) : List α → Option Nat
  | [] => none
  | x :: xs => if p x then some 0 else (firstIdx p xs).map (· + 1)

/-- The splice `append(s[:i], s[i+1:]...)`. -/
def splice {α : Type} (s : List α) (i : Nat) : List α :=
  s.take i ++ s.drop (i + 1)

/-- A Go `map[string]*V`. -/
abbrev GoMap (V : Type) := String → Option V

/-- The map `make(map[string]*V)`. -/
def GoMap.empty {V : Type} : GoMap V := fun _ => none

/-- The assignment `m[k] = v`. -/
def GoMap.insert {V : Type} (m : GoMap V) (k : String) (v : V) : GoMap V :=
  fun x => if x = k then some v else m x

/-- The statement `delete(m, k)`. -/
def GoMap.delete {V : Type} (m : GoMap V) (k : String) : GoMap V :=
  fun x => if x = k then none else m x

/-- How a call can fail to return normally. -/
inductive Fault where
  | deadlock
  | panic
  deriving DecidableEq

/-- State of the `sync.RWMutex` embedded in `GuildState`. -/
structure RWMutex where
  writer : Bool
  readers : Nat
  deriving DecidableEq

/-- The mutex held by nobody. -/
def RWMutex.free : RWMutex := { writer := false, readers := 0 }

/-! ## Records of the event library -/

/-- Modelled from the spec: the `discordgo.User` record (identity of a user). -/
structure User where
  ID : String
  Username : String
  deriving DecidableEq

/-- Modelled from the spec: the `discordgo.Role` record. -/
structure Role where
  ID : String
  Name : String
  Permissions : Int
  deriving DecidableEq

/-- Modelled from the spec: the `discordgo.Emoji` record. -/
structure Emoji where
  ID : String
  Name : String
  deriving DecidableEq

/-- Modelled from the spec: the `discordgo.Game` record (activity of a presence). -/
structure Game where
  Name : String
  deriving DecidableEq

/-- Modelled from the spec: the `discordgo.Member` record; `Roles` is a slice of
role IDs whose nil-ness the source tests, `User` is dereferenced untested. -/
structure Member where
  GuildID : String
  JoinedAt : String
  Nick : String
  Deaf : Bool
  Mute : Bool
  User : User
  Roles : Slice String
  deriving DecidableEq

/-- Modelled from the spec: the `discordgo.Presence` record; `Game` may be nil. -/
structure Presence where
  User : User
  Status : String
  Game : Option Game
  deriving DecidableEq

/-- Modelled from the spec: the `discordgo.PermissionOverwrite` record. -/
structure PermissionOverwrite where
  ID : String
  Type_ : String
  Deny : Int
  Allow : Int
  deriving DecidableEq

/-- Modelled from the spec: the `discordgo.Channel` record. -/
structure Channel where
  ID : String
  GuildID : String
  Name : String
  Topic : String
  Type_ : String
  Position : Int
  IsPrivate : Bool
  Recipient : Option User
  PermissionOverwrites : Slice PermissionOverwrite
  deriving DecidableEq

/-- Modelled from the spec: the `discordgo.VoiceState` record. -/
structure VoiceState where
  UserID : String
  SessionID : String
  ChannelID : String
  GuildID : String
  Suppress : Bool
  SelfMute : Bool
  SelfDeaf : Bool
  Mute : Bool
  Deaf : Bool
  deriving DecidableEq

/-- Modelled from the spec: the `discordgo.VoiceStateUpdate` event, which embeds a
`*VoiceState` (so `update.UserID` is `update.VoiceState.UserID`). -/
structure VoiceStateUpdate where
  VoiceState : VoiceState
  deriving DecidableEq

/-- The promoted field `update.UserID`. -/
def VoiceStateUpdate.UserID (u : VoiceStateUpdate) : String := u.VoiceState.UserID

/-- The promoted field `update.ChannelID`. -/
def VoiceStateUpdate.ChannelID (u : VoiceStateUpdate) : String := u.VoiceState.ChannelID

/-- Modelled from the spec: the `discordgo.MessageEmbed` record. -/
structure MessageEmbed where
  URL : String
  Title : String
  deriving DecidableEq

/-- Modelled from the spec: the `discordgo.MessageAttachment` record. -/
structure MessageAttachment where
  ID : String
  URL : String
  deriving DecidableEq

/-- Modelled from the spec: the `discordgo.Message` record. -/
structure Message where
  ID : String
  ChannelID : String
  Content : String
  Timestamp : String
  EditedTimestamp : String
  Author : Option User
  Mentions : Slice User
  Embeds : Slice MessageEmbed
  Attachments : Slice MessageAttachment
  deriving DecidableEq

/-- Modelled from the spec: the `discordgo.Guild` record (guild metadata with its
six embedded lists). -/
structure Guild where
  ID : String
  Name : String
  Icon : String
  Region : String
  OwnerID : String
  VerificationLevel : Int
  Roles : Slice Role
  Emojis : Slice Emoji
  Members : Slice Member
  Presences : Slice Presence
  Channels : Slice Channel
  VoiceStates : Slice VoiceState
  deriving DecidableEq

/-! ## Entries of the aggregate -/

/-- Modelled from the spec: the `MessageState` entry (MessageEntry): the message
payload, its two pre-parsed timestamps and the tombstone flag. -/
structure MessageState where
  Message : Message
  ParsedCreated : Time
  ParsedEdited : Time
  Deleted : Bool
  deriving DecidableEq

/-- Modelled from the spec: the `ChannelState` entry (ChannelEntry): channel
metadata and the ordered message sequence, oldest first.  The non-owning
back-reference to the aggregate is not represented. -/
structure ChannelState where
  Channel : Channel
  Messages : List MessageState
  deriving DecidableEq

/-- Modelled from the spec: the `MemberState` entry (MemberEntry): an optional
membership half and an optional presence half. -/
structure MemberState where
  Member : Option Member
  Presence : Option Presence
  deriving DecidableEq

/-- The aggregate `GuildState`. -/
structure GuildState where
  mu : RWMutex
  Guild : Guild
  Members : GoMap MemberState
  Channels : GoMap ChannelState
  maxMessages : Int
  maxMessageDuration : Duration
  removeDeletedMessages : Bool

/-! ## Locking -/

/-- The call `g.Lock()`: granted only when nobody holds the mutex. -/
def GuildState.Lock (g : GuildState) : Except Fault GuildState :=
  if g.mu.writer = false ∧ g.mu.readers = 0 then
    .ok { g with mu := { g.mu with writer := true } }
  else .error .deadlock

/-- The call `g.Unlock()`: a run-time error when the mutex is not write-locked. -/
def GuildState.Unlock (g : GuildState) : Except Fault GuildState :=
  if g.mu.writer = true then .ok { g with mu := { g.mu with writer := false } }
  else .error .panic

/-- The call `g.RLock()`: granted unless the mutex is write-locked. -/
def GuildState.RLock (g : GuildState) : Except Fault GuildState :=
  if g.mu.writer = false then
    .ok { g with mu := { g.mu with readers := g.mu.readers + 1 } }
  else .error .deadlock

/-- The call `g.RUnlock()`: a run-time error when there is no reader. -/
def GuildState.RUnlock (g : GuildState) : Except Fault GuildState :=
  if 0 < g.mu.readers then .ok { g with mu := { g.mu with readers := g.mu.readers - 1 } }
  else .error .panic

/-- The prologue `if lock { g.Lock(); defer g.Unlock() }` around a body that
returns the new state. -/
def withLock (lock : Bool) (g : GuildState)
    (body : GuildState → Except Fault GuildState) : Except Fault GuildState :=
  if lock then do
    let g1 ← g.Lock
    let g2 ← body g1
    g2.Unlock
  else body g

/-- The prologue `if lock { g.Lock(); defer g.Unlock() }` around a body that
returns a value together with the new state. -/
def withLockRet {α : Type} (lock : Bool) (g : GuildState)
    (body : GuildState → Except Fault (α × GuildState)) : Except Fault (α × GuildState) :=
  if lock then do
    let g1 ← g.Lock
    let r ← body g1
    let g3 ← r.2.Unlock
    pure (r.1, g3)
  else body g

/-- The prologue `if lock { g.RLock(); defer g.RUnlock() }` around a read-only
body; the mutex is back in its initial state when the value is returned. -/
def withRLock {α : Type} (lock : Bool) (g : GuildState)
    (body : GuildState → α) : Except Fault α :=
  if lock then do
    let g1 ← g.RLock
    let r := body g1
    let _ ← g1.RUnlock
    pure r
  else pure (body g)

/-! ## Helpers of the entries -/

/-- Overwrite `*existing = v` through the pointer that a first-match scan with
test `p` returned: the first element satisfying `p` is replaced by `v`. -/
def overwriteFirst {α : Type} (p : α → Bool) (v : α) : List α → List α
  | [] => []
  | x :: xs => if p x then v :: xs else x :: overwriteFirst p v xs

/-- Modelled from the spec: `MessageState.ParseTimes`, which re-derives the two
parsed timestamps from the textual ones; `parse` yields the zero instant for a
timestamp that cannot be parsed. -/
def MessageState.ParseTimes (parse : String → Time) (m : MessageState) : MessageState :=
  { m with ParsedCreated := parse m.Message.Timestamp,
           ParsedEdited := parse m.Message.EditedTimestamp }

/-- Modelled from the spec: `ChannelState.Message`, the lookup of a message entry
by message ID, a linear scan of the channel's sequence. -/
def ChannelState.Message (c : ChannelState) (mID : String) : Option MessageState :=
  c.Messages.find? (fun m => m.Message.ID == mID)

/-! ## Entry points of the aggregate -/

/-- The entry point `GuildUpdate`: backfill the six nil lists of `newGuild` from the
stored guild, then overwrite the stored guild. -/
def GuildState.GuildUpdate (g : GuildState) (lock : Bool) (newGuild : Dstate.Guild) :
    Except Fault GuildState :=
  withLock lock g fun g =>
    let newGuild :=
      if newGuild.Roles.isNone then { newGuild with Roles := g.Guild.Roles } else newGuild
    let newGuild :=
      if newGuild.Emojis.isNone then { newGuild with Emojis := g.Guild.Emojis } else newGuild
    let newGuild :=
      if newGuild.Members.isNone then { newGuild with Members := g.Guild.Members } else newGuild
    let newGuild :=
      if newGuild.Presences.isNone then { newGuild with Presences := g.Guild.Presences }
      else newGuild
    let newGuild :=
      if newGuild.Channels.isNone then { newGuild with Channels := g.Guild.Channels }
      else newGuild
    let newGuild :=
      if newGuild.VoiceStates.isNone then { newGuild with VoiceStates := g.Guild.VoiceStates }
      else newGuild
    pure { g with Guild := newGuild }

/-- The patch branch of `MemberAddUpdate` on an existing membership half. -/
def GuildState.MemberAddUpdate.patch (existing newMember : Member) : Member :=
  let existing :=
    if newMember.JoinedAt ≠ "" then { existing with JoinedAt := newMember.JoinedAt }
    else existing
  let existing :=
    if newMember.Roles.isSome then { existing with Roles := newMember.Roles } else existing
  { existing with Nick := newMember.Nick, User := newMember.User }

/-- The entry point `MemberAddUpdate`, on the keyed collection `Members`.  The patch
of the source writes through `existing.Member`; the model rewrites the entry and
leaves the embedded list `Guild.Members`, whose element may be that record, as it
is. -/
def GuildState.MemberAddUpdate (g : GuildState) (lock : Bool) (newMember : Member) :
    Except Fault GuildState :=
  withLock lock g fun g =>
    match g.Members newMember.User.ID with
    | some existing =>
      match existing.Member with
      | none =>
        let existing : MemberState := { existing with Member := some newMember }
        pure { g with Members := g.Members.insert newMember.User.ID existing }
      | some m =>
        let existing : MemberState :=
          { existing with Member := some (GuildState.MemberAddUpdate.patch m newMember) }
        pure { g with Members := g.Members.insert newMember.User.ID existing }
    | none =>
      let state : MemberState := { Member := some newMember, Presence := none }
      pure { g with Members := g.Members.insert newMember.User.ID state }

/-- The entry point `MemberRemove`. -/
def GuildState.MemberRemove (g : GuildState) (lock : Bool) (id : String) :
    Except Fault GuildState :=
  withLock lock g fun g => pure { g with Members := g.Members.delete id }

/-- The patch branch of `PresenceAddUpdate` on an existing presence half. -/
def GuildState.PresenceAddUpdate.patch (existing newPresence : Presence) : Presence :=
  let existing := { existing with Game := newPresence.Game }
  if newPresence.Status ≠ "" then { existing with Status := newPresence.Status } else existing

/-- The entry point `PresenceAddUpdate`, on the keyed collection `Members`.  The
patch of the source writes through `existing.Presence`; the model rewrites the entry
and leaves the embedded list `Guild.Presences`, whose element may be that record, as
it is. -/
def GuildState.PresenceAddUpdate (g : GuildState) (lock : Bool) (newPresence : Presence) :
    Except Fault GuildState :=
  withLock lock g fun g =>
    match g.Members newPresence.User.ID with
    | some existing =>
      match existing.Presence with
      | none =>
        let existing : MemberState := { existing with Presence := some newPresence }
        pure { g with Members := g.Members.insert newPresence.User.ID existing }
      | some p =>
        let existing : MemberState :=
          { existing with Presence := some (GuildState.PresenceAddUpdate.patch p newPresence) }
        pure { g with Members := g.Members.insert newPresence.User.ID existing }
    | none =>
      let state : MemberState := { Member := none, Presence := some newPresence }
      pure { g with Members := g.Members.insert newPresence.User.ID state }

/-- The lookup `Channel`. -/
def GuildState.Channel (g : GuildState) (lock : Bool) (id : String) :
    Except Fault (Option ChannelState) :=
  withRLock lock g fun g => g.Channels id

/-- The backfill of `ChannelAddUpdate` on an existing entry: the record that
overwrites the stored channel metadata. -/
def GuildState.ChannelAddUpdate.patch (existing newChannel : Dstate.Channel) : Dstate.Channel :=
  let newChannel :=
    if newChannel.PermissionOverwrites.isNone then
      { newChannel with PermissionOverwrites := existing.PermissionOverwrites }
    else newChannel
  if newChannel.IsPrivate && newChannel.Recipient.isNone then
    { newChannel with Recipient := existing.Recipient }
  else newChannel

/-- The entry point `ChannelAddUpdate`, on the keyed collection `Channels`; returns
the affected entry.  The source overwrites the record `*existing.Channel`; the model
rewrites the entry and leaves the embedded list `Guild.Channels`, whose element may
be that record, as it is. -/
def GuildState.ChannelAddUpdate (g : GuildState) (lock : Bool) (newChannel : Dstate.Channel) :
    Except Fault (ChannelState × GuildState) :=
  withLockRet lock g fun g =>
    match g.Channels newChannel.ID with
    | some existing =>
      let existing : ChannelState :=
        { existing with
          Channel := GuildState.ChannelAddUpdate.patch existing.Channel newChannel }
      pure (existing, { g with Channels := g.Channels.insert newChannel.ID existing })
    | none =>
      let state : ChannelState := { Channel := newChannel, Messages := [] }
      pure (state, { g with Channels := g.Channels.insert newChannel.ID state })

/-- The entry point `ChannelRemove`. -/
def GuildState.ChannelRemove (g : GuildState) (lock : Bool) (id : String) :
    Except Fault GuildState :=
  withLock lock g fun g => pure { g with Channels := g.Channels.delete id }

/-- The lookup `Role`: first role of the list with the given ID. -/
def GuildState.Role (g : GuildState) (lock : Bool) (id : String) :
    Except Fault (Option Dstate.Role) :=
  withRLock lock g fun g => (Slice.toList g.Guild.Roles).find? (fun role => role.ID == id)

/-- The entry point `RoleAddUpdate`. -/
def GuildState.RoleAddUpdate (g : GuildState) (lock : Bool) (newRole : Dstate.Role) :
    Except Fault GuildState :=
  withLock lock g fun g => do
    let existing ← g.Role false newRole.ID
    match existing with
    | some _ =>
      pure { g with Guild := { g.Guild with
        Roles := g.Guild.Roles.map (overwriteFirst (fun role => role.ID == newRole.ID) newRole) } }
    | none =>
      pure { g with Guild := { g.Guild with Roles := Slice.append g.Guild.Roles newRole } }

/-- The entry point `RoleRemove`. -/
def GuildState.RoleRemove (g : GuildState) (lock : Bool) (id : String) :
    Except Fault GuildState :=
  withLock lock g fun g =>
    match firstIdx (fun v => v.ID == id) (Slice.toList g.Guild.Roles) with
    | some i =>
      pure { g with Guild := { g.Guild with
        Roles := some (splice (Slice.toList g.Guild.Roles) i) } }
    | none => pure g

/-- The lookup `VoiceState`: first voice state of the list with the given user ID. -/
def GuildState.VoiceState (g : GuildState) (lock : Bool) (userID : String) :
    Except Fault (Option Dstate.VoiceState) :=
  withRLock lock g fun g => (Slice.toList g.Guild.VoiceStates).find? (fun v => v.UserID == userID)

/-- The entry point `VoiceStateUpdate`. -/
def GuildState.VoiceStateUpdate (g : GuildState) (lock : Bool)
    (update : Dstate.VoiceStateUpdate) : Except Fault GuildState :=
  withLock lock g fun g => do
    -- Handle Leaving Channel
    let left : Option Nat :=
      if update.ChannelID = "" then
        firstIdx (fun state => state.UserID == update.UserID) (Slice.toList g.Guild.VoiceStates)
      else none
    match left with
    | some i =>
      pure { g with Guild := { g.Guild with
        VoiceStates := some (splice (Slice.toList g.Guild.VoiceStates) i) } }
    | none =>
      let existing ← g.VoiceState false update.UserID
      match existing with
      | some _ =>
        pure { g with Guild := { g.Guild with
          VoiceStates := g.Guild.VoiceStates.map
            (overwriteFirst (fun v => v.UserID == update.UserID) update.VoiceState) } }
      | none =>
        pure { g with Guild := { g.Guild with
          VoiceStates := Slice.append g.Guild.VoiceStates update.VoiceState } }

/-- The patch branch of `MessageAddUpdate`: the fields of `msg` that are present
overwrite those of the stored message. -/
def GuildState.MessageAddUpdate.patch (existing msg : Message) : Message :=
  let existing := if msg.Content ≠ "" then { existing with Content := msg.Content } else existing
  let existing :=
    if msg.EditedTimestamp ≠ "" then { existing with EditedTimestamp := msg.EditedTimestamp }
    else existing
  let existing :=
    if msg.Mentions.isSome then { existing with Mentions := msg.Mentions } else existing
  let existing := if msg.Embeds.isSome then { existing with Embeds := msg.Embeds } else existing
  let existing :=
    if msg.Attachments.isSome then { existing with Attachments := msg.Attachments }
    else existing
  let existing :=
    if msg.Timestamp ≠ "" then { existing with Timestamp := msg.Timestamp } else existing
  if msg.Author.isSome then { existing with Author := msg.Author } else existing

/-- The entry `&MessageState{Message: msg}` after `ParseTimes`, as appended by the
create branch of `MessageAddUpdate`. -/
def GuildState.MessageAddUpdate.newEntry (parse : String → Time) (msg : Message) :
    MessageState :=
  MessageState.ParseTimes parse
    { Message := msg, ParsedCreated := 0, ParsedEdited := 0, Deleted := false }

/-- The add-or-update step of `MessageAddUpdate` on the message sequence of the
channel: patch the entry found by `channel.Message(msg.ID)`, or append a new entry
and cut the sequence back to its last `maxMessages` entries. -/
def GuildState.MessageAddUpdate.addOrPatch (parse : String → Time) (maxMessages : Int)
    (channel : ChannelState) (msg : Message) : Except Fault (List MessageState) :=
  match channel.Message msg.ID with
  | some existing =>
    -- Patch the existing message
    let existing : MessageState := MessageState.ParseTimes parse
      { existing with Message := GuildState.MessageAddUpdate.patch existing.Message msg }
    pure (overwriteFirst (fun m => m.Message.ID == msg.ID) existing channel.Messages)
  | none =>
    -- Add the new one
    let messages := channel.Messages ++ [GuildState.MessageAddUpdate.newEntry parse msg]
    if (messages.length : Int) > maxMessages then
      if maxMessages < 0 then .error .panic
      else pure (messages.drop (messages.length - maxMessages.toNat))
    else pure messages

/-- The age check of `MessageAddUpdate`: the loop
`for i := len(messages) - 1; i >= 0; i--`, entered with `len(messages)` as last
argument (the argument `i + 1` stands for the loop index `i`). -/
def GuildState.MessageAddUpdate.checkAge (now : Time) (maxMessageDuration : Duration)
    (messages : List MessageState) : Nat → List MessageState
  | 0 => messages
  | i + 1 =>
    match messages[i]? with
    | none => messages
    | some m =>
      let ts := m.ParsedCreated
      if Time.IsZero ts then
        GuildState.MessageAddUpdate.checkAge now maxMessageDuration messages i
      else if Time.Sub now ts > maxMessageDuration then messages.drop i
      else GuildState.MessageAddUpdate.checkAge now maxMessageDuration messages i

/-- The entry point `MessageAddUpdate`. -/
def GuildState.MessageAddUpdate (g : GuildState) (parse : String → Time) (now : Time)
    (lock : Bool) (msg : Message) : Except Fault GuildState :=
  withLock lock g fun g =>
    match g.Channels msg.ChannelID with
    | none => pure g
    | some channel => do
      let messages ← GuildState.MessageAddUpdate.addOrPatch parse g.maxMessages channel msg
      -- Check age
      if g.maxMessageDuration = 0 then
        let channel : ChannelState := { channel with Messages := messages }
        pure { g with Channels := g.Channels.insert msg.ChannelID channel }
      else
        let channel : ChannelState := { channel with
          Messages := GuildState.MessageAddUpdate.checkAge now g.maxMessageDuration messages
            messages.length }
        pure { g with Channels := g.Channels.insert msg.ChannelID channel }

/-- The removal loop of `MessageRemove` over the message sequence of the channel:
the first entry with the given ID is spliced out or flagged, then the loop returns. -/
def GuildState.MessageRemove.loop (removeDeletedMessages : Bool) (messageID : String) :
    List MessageState → List MessageState
  | [] => []
  | ms :: rest =>
    if ms.Message.ID == messageID then
      if removeDeletedMessages then rest else { ms with Deleted := true } :: rest
    else ms :: GuildState.MessageRemove.loop removeDeletedMessages messageID rest

/-- The entry point `MessageRemove`; the channel lookup is called with the
caller's own `lock` flag, as in the source. -/
def GuildState.MessageRemove (g : GuildState) (lock : Bool) (channelID messageID : String) :
    Except Fault GuildState :=
  withLock lock g fun g => do
    let channel ← g.Channel lock channelID
    match channel with
    | none => pure g
    | some channel =>
      let channel : ChannelState := { channel with
        Messages := GuildState.MessageRemove.loop g.removeDeletedMessages messageID
          channel.Messages }
      pure { g with Channels := g.Channels.insert channelID channel }

/-- The constructor `NewGuildState`: store the guild and the configuration, then
replay the embedded channel, member and presence lists without locking.  The keyed
entries hold the replayed records by value; in the source they hold the snapshot's
own element pointers, so a repeated key patches the snapshot's record in place, which
the `Guild` field of the model does not show. -/
def NewGuildState (guild : Guild) (maxMessages : Int) (maxMessageDuration : Duration)
    (removeDeletedMessages : Bool) : Except Fault GuildState := do
  let guildState : GuildState :=
    { mu := RWMutex.free, Guild := guild, Members := GoMap.empty, Channels := GoMap.empty,
      maxMessages := maxMessages, maxMessageDuration := maxMessageDuration,
      removeDeletedMessages := removeDeletedMessages }
  let guildState ← (Slice.toList guild.Channels).foldlM
    (fun st channel => (st.ChannelAddUpdate false channel).map Prod.snd) guildState
  let guildState ← (Slice.toList guild.Members).foldlM
    (fun st member => st.MemberAddUpdate false member) guildState
  (Slice.toList guild.Presences).foldlM
    (fun st presence => st.PresenceAddUpdate false presence) guildState

/-- Adding the messages of a list in order, each at its own time, through
`MessageAddUpdate`. -/
def addAll (parse : String → Time) (lock : Bool) :
    List (Time × Message) → GuildState → Except Fault GuildState
  | [], g => .ok g
  | (now, msg) :: rest, g => do
    let g ← g.MessageAddUpdate parse now lock msg
    addAll parse lock rest g

/-! ## Traces of calls -/

/-- One call of a mutating entry point, with its arguments. -/
inductive Op where
  | guildUpdate (lock : Bool) (newGuild : Guild)
  | memberAddUpdate (lock : Bool) (newMember : Member)
  | memberRemove (lock : Bool) (id : String)
  | presenceAddUpdate (lock : Bool) (newPresence : Presence)
  | channelAddUpdate (lock : Bool) (newChannel : Channel)
  | channelRemove (lock : Bool) (id : String)
  | roleAddUpdate (lock : Bool) (newRole : Role)
  | roleRemove (lock : Bool) (id : String)
  | voiceStateUpdate (lock : Bool) (update : VoiceStateUpdate)
  | messageAddUpdate (now : Time) (lock : Bool) (msg : Message)
  | messageRemove (lock : Bool) (channelID messageID : String)

/-- The state in which the call `op` returns. -/
def Op.run (parse : String → Time) (g : GuildState) : Op → Except Fault GuildState
  | .guildUpdate lock newGuild => g.GuildUpdate lock newGuild
  | .memberAddUpdate lock newMember => g.MemberAddUpdate lock newMember
  | .memberRemove lock id => g.MemberRemove lock id
  | .presenceAddUpdate lock newPresence => g.PresenceAddUpdate lock newPresence
  | .channelAddUpdate lock newChannel => (g.ChannelAddUpdate lock newChannel).map Prod.snd
  | .channelRemove lock id => g.ChannelRemove lock id
  | .roleAddUpdate lock newRole => g.RoleAddUpdate lock newRole
  | .roleRemove lock id => g.RoleRemove lock id
  | .voiceStateUpdate lock update => g.VoiceStateUpdate lock update
  | .messageAddUpdate now lock msg => g.MessageAddUpdate parse now lock msg
  | .messageRemove lock channelID messageID => g.MessageRemove lock channelID messageID

/-- The call `op` made with the lock already held (`lock = false`). -/
def Op.unlocked : Op → Op
  | .guildUpdate _ newGuild => .guildUpdate false newGuild
  | .memberAddUpdate _ newMember => .memberAddUpdate false newMember
  | .memberRemove _ id => .memberRemove false id
  | .presenceAddUpdate _ newPresence => .presenceAddUpdate false newPresence
  | .channelAddUpdate _ newChannel => .channelAddUpdate false newChannel
  | .channelRemove _ id => .channelRemove false id
  | .roleAddUpdate _ newRole => .roleAddUpdate false newRole
  | .roleRemove _ id => .roleRemove false id
  | .voiceStateUpdate _ update => .voiceStateUpdate false update
  | .messageAddUpdate now _ msg => .messageAddUpdate now false msg
  | .messageRemove _ channelID messageID => .messageRemove false channelID messageID

/-- The state after a sequence of calls, each made when the previous one returned. -/
def runOps (parse : String → Time) : List Op → GuildState → Except Fault GuildState
  | [], g => .ok g
  | op :: rest, g => do
    let g ← op.run parse g
    runOps parse rest g

/-- The message IDs of every channel entry are pairwise distinct. -/
def MessageIDsUnique (g : GuildState) : Prop :=
  ∀ c ch, g.Channels c = some ch → (ch.Messages.map fun m => m.Message.ID).Nodup

/-- Every member entry is stored under the user ID of its membership half and of
its presence half, and every channel entry under the ID of its metadata. -/
def KeyConsistent (g : GuildState) : Prop :=
  (∀ k e, g.Members k = some e →
    (∀ m, e.Member = some m → m.User.ID = k) ∧ (∀ p, e.Presence = some p → p.User.ID = k)) ∧
  (∀ c ch, g.Channels c = some ch → ch.Channel.ID = c)

/-- What one call may do to the member entries: each half of an entry of the new
state either carries the key of the entry as its user ID, or is the half that the
entry under the same key had before (for a presence: has the same user). -/
def MembersStep (g g' : GuildState) : Prop :=
  ∀ k e', g'.Members k = some e' →
    (∀ m, e'.Member = some m →
      m.User.ID = k ∨ ∃ e, g.Members k = some e ∧ e.Member = some m) ∧
    (∀ p, e'.Presence = some p →
      p.User.ID = k ∨ ∃ e p0, g.Members k = some e ∧ e.Presence = some p0 ∧ p.User = p0.User)

/-- What one call may do to the channel entries: the metadata of an entry of the new
state either carries the key of the entry as its ID or is the metadata that the
entry under the same key had before, and its message sequence is either empty or
has pairwise distinct IDs if the sequence under the same key had before. -/
def ChannelsStep (g g' : GuildState) : Prop :=
  ∀ c ch', g'.Channels c = some ch' →
    (ch'.Channel.ID = c ∨ ∃ ch, g.Channels c = some ch ∧ ch'.Channel = ch.Channel) ∧
    (ch'.Messages = [] ∨ ∃ ch, g.Channels c = some ch ∧
      ((ch.Messages.map fun m => m.Message.ID).Nodup →
        (ch'.Messages.map fun m => m.Message.ID).Nodup))

/-- The calls that `NewGuildState` replays for a guild snapshot. -/
def replayOps (guild : Guild) : List Op :=
  (Slice.toList guild.Channels).map (Op.channelAddUpdate false) ++
    ((Slice.toList guild.Members).map (Op.memberAddUpdate false) ++
      (Slice.toList guild.Presences).map (Op.presenceAddUpdate false))

/-! ## Concrete inputs

Small aggregates and events on which the entry points are evaluated. -/

namespace Example

/-- A text channel with ID `general`. -/
def general : Dstate.Channel :=
  { ID := "general", GuildID := "guild", Name := "general", Topic := "", Type_ := "text",
    Position := 0, IsPrivate := false, Recipient := none,
    PermissionOverwrites := some [{ ID := "r1", Type_ := "role", Deny := 0, Allow := 1024 }] }

/-- A guild snapshot with the single channel `general` and no other list. -/
def guild : Dstate.Guild :=
  { ID := "guild", Name := "guild", Icon := "", Region := "", OwnerID := "owner",
    VerificationLevel := 0, Roles := none, Emojis := none, Members := none,
    Presences := none, Channels := some [general], VoiceStates := none }

/-- A timestamp parser on the timestamps `t10`, `t95`, ...: the number after the
`t` when it is one of those used below, the zero instant otherwise. -/
def parseTime (s : String) : Time :=
  if s = "t10" then 10 else if s = "t95" then 95 else if s = "t100" then 100 else 0

/-- A message of channel `general` with the given ID and creation timestamp. -/
def message (id ts : String) : Message :=
  { ID := id, ChannelID := "general", Content := "hello", Timestamp := ts,
    EditedTimestamp := "", Author := none, Mentions := none, Embeds := none,
    Attachments := none }

/-- The IDs, parsed creation times and tombstone flags of the messages held for
channel `general`; `none` when the call did not return. -/
def held (r : Except Fault GuildState) : Option (List (String × Time × Bool)) :=
  match r with
  | .ok g =>
    (g.Channels "general").map fun c =>
      c.Messages.map fun m => (m.Message.ID, m.ParsedCreated, m.Deleted)
  | .error _ => none

/-- Age scenario: an aggregate with `maxMessages = 10` and `maxMessageDuration = 20`;
message `m1` created and added at time 10, then message `m2` created and added at
time 95, both through the locking entry point. -/
def ageScenario : Except Fault GuildState := do
  let g ← NewGuildState guild 10 20 false
  let g ← g.MessageAddUpdate parseTime 10 true (message "m1" "t10")
  g.MessageAddUpdate parseTime 95 true (message "m2" "t95")

/-- A voice-state update of user `u1` with an empty channel reference. -/
def leftVoice : Dstate.VoiceStateUpdate :=
  { VoiceState :=
    { UserID := "u1", SessionID := "s", ChannelID := "", GuildID := "guild",
      Suppress := false, SelfMute := false, SelfDeaf := false, Mute := false, Deaf := false } }

/-- Leave scenario: on a fresh aggregate, whose voice-state list is empty, user `u1`
signals that it left voice. -/
def leaveScenario : Except Fault GuildState := do
  let g ← NewGuildState guild 10 0 false
  g.VoiceStateUpdate true leftVoice

/-- The entry that the create path stores for a message of `general`. -/
def entry (id ts : String) : MessageState :=
  GuildState.MessageAddUpdate.newEntry parseTime (message id ts)

/-- The channel entry of `general` holding the given message sequence. -/
def channelWith (messages : List MessageState) : ChannelState :=
  { Channel := general, Messages := messages }

/-- An unlocked aggregate with `maxMessages = 3`, age eviction disabled, the given
removal policy, and the single channel `general` holding the given sequence. -/
def cache (messages : List MessageState) (hard : Bool) : GuildState :=
  { mu := RWMutex.free, Guild := guild, Members := GoMap.empty,
    Channels := GoMap.insert GoMap.empty "general" (channelWith messages),
    maxMessages := 3, maxMessageDuration := 0, removeDeletedMessages := hard }

/-- Five messages `m1 .. m5` of `general`, added at times 1 to 5. -/
def five : List (Time × Message) :=
  [(1, message "m1" "t10"), (2, message "m2" "t10"), (3, message "m3" "t95"),
   (4, message "m4" "t95"), (5, message "m5" "t100")]

/-- A role with the given ID. -/
def role (id : String) : Dstate.Role := { ID := id, Name := id, Permissions := 0 }

/-- A member record of user `u1`. -/
def member1 : Dstate.Member :=
  { GuildID := "guild", JoinedAt := "t10", Nick := "one", Deaf := false, Mute := false,
    User := { ID := "u1", Username := "user one" }, Roles := some ["r1"] }

/-- A voice state of the given user in the given channel. -/
def voice (user channel : String) : Dstate.VoiceState :=
  { UserID := user, SessionID := "s", ChannelID := channel, GuildID := "guild",
    Suppress := false, SelfMute := false, SelfDeaf := false, Mute := false, Deaf := false }

/-- A stored guild with one role, one emoji, one member, one channel and one voice
state. -/
def storedGuild : Dstate.Guild :=
  { ID := "guild", Name := "old name", Icon := "", Region := "eu", OwnerID := "owner",
    VerificationLevel := 1, Roles := some [role "r1"],
    Emojis := some [{ ID := "e1", Name := "smile" }], Members := some [member1],
    Presences := none, Channels := some [general], VoiceStates := some [voice "u2" "general"] }

/-- An incoming snapshot that supplies a new role list and none of the other lists. -/
def rolesOnly : Dstate.Guild :=
  { ID := "guild", Name := "new name", Icon := "", Region := "eu", OwnerID := "owner",
    VerificationLevel := 1, Roles := some [role "r1", role "r2"], Emojis := none,
    Members := none, Presences := none, Channels := none, VoiceStates := none }

/-- An unlocked aggregate around `storedGuild` with empty keyed collections. -/
def stored : GuildState :=
  { mu := RWMutex.free, Guild := storedGuild, Members := GoMap.empty, Channels := GoMap.empty,
    maxMessages := 3, maxMessageDuration := 0, removeDeletedMessages := false }

/-- An update of member `u1` without join timestamp and with an empty, non-nil role
list. -/
def member1Update : Dstate.Member :=
  { GuildID := "", JoinedAt := "", Nick := "uno", Deaf := true, Mute := true,
    User := { ID := "u1", Username := "user 1" }, Roles := some [] }

/-- An unlocked aggregate whose member collection holds `member1` (no presence). -/
def withMember : GuildState :=
  { mu := RWMutex.free, Guild := guild,
    Members := GoMap.insert GoMap.empty "u1" { Member := some member1, Presence := none },
    Channels := GoMap.empty, maxMessages := 3, maxMessageDuration := 0,
    removeDeletedMessages := false }

/-- An update of channel `general` that renames it and supplies no permission
overwrites. -/
def generalUpdate : Dstate.Channel :=
  { ID := "general", GuildID := "guild", Name := "lobby", Topic := "welcome", Type_ := "text",
    Position := 1, IsPrivate := false, Recipient := none, PermissionOverwrites := none }

/-- An unlocked aggregate whose voice-state list holds users `u2` and `u3`. -/
def inVoice : GuildState :=
  { mu := RWMutex.free,
    Guild := { storedGuild with VoiceStates := some [voice "u2" "general", voice "u3" "general"] },
    Members := GoMap.empty, Channels := GoMap.empty, maxMessages := 3,
    maxMessageDuration := 0, removeDeletedMessages := false }

/-- A new version of role `r1`. -/
def role1New : Dstate.Role := { ID := "r1", Name := "admin", Permissions := 8 }

/-- An unlocked aggregate whose role list holds `r1` and `r2`. -/
def withRoles : GuildState :=
  { mu := RWMutex.free, Guild := rolesOnly, Members := GoMap.empty, Channels := GoMap.empty,
    maxMessages := 3, maxMessageDuration := 0, removeDeletedMessages := false }

/-- A presence of user `u1`: online and playing. -/
def presence1 : Dstate.Presence :=
  { User := { ID := "u1", Username := "user one" }, Status := "online",
    Game := some { Name := "chess" } }

/-- An update of the presence of `u1` with an empty status and no game. -/
def presence1Update : Dstate.Presence :=
  { User := { ID := "u1", Username := "user 1" }, Status := "", Game := none }

/-- An unlocked aggregate whose member collection holds `member1` with `presence1`. -/
def withPresence : GuildState :=
  { mu := RWMutex.free, Guild := guild,
    Members := GoMap.insert GoMap.empty "u1"
      { Member := some member1, Presence := some presence1 },
    Channels := GoMap.empty, maxMessages := 3, maxMessageDuration := 0,
    removeDeletedMessages := false }

/-- An edit of message `m4`: new content and edited timestamp, nothing else. -/
def edit4 : Message :=
  { ID := "m4", ChannelID := "general", Content := "edited", Timestamp := "",
    EditedTimestamp := "t100", Author := none, Mentions := some [], Embeds := none,
    Attachments := none }

/-- Unknown-age scenario, first part: an aggregate with `maxMessages = 10` and
`maxMessageDuration = 20`; message `z`, whose timestamp does not parse, added at
time 5, then message `m1` created and added at time 10. -/
def unknownAgeBefore : Except Fault GuildState := do
  let g ← NewGuildState guild 10 20 false
  let g ← g.MessageAddUpdate parseTime 5 true (message "z" "bad")
  g.MessageAddUpdate parseTime 10 true (message "m1" "t10")

/-- Unknown-age scenario: the sequence of `general` after the add-or-update step of
the call that adds message `m2`, created at time 95, before its age check. -/
def unknownAgeAdded : Except Fault (List (String × Time × Bool)) := do
  let g ← unknownAgeBefore
  match g.Channels "general" with
  | none => pure []
  | some ch =>
    let messages ←
      GuildState.MessageAddUpdate.addOrPatch parseTime g.maxMessages ch (message "m2" "t95")
    pure (messages.map fun m => (m.Message.ID, m.ParsedCreated, m.Deleted))

/-- Unknown-age scenario, second part: message `m2` created and added at time 95. -/
def unknownAgeAfter : Except Fault GuildState := do
  let g ← unknownAgeBefore
  g.MessageAddUpdate parseTime 95 true (message "m2" "t95")

/-- An unlocked aggregate with `maxMessages = 10` and `maxMessageDuration = 20` whose
single channel `general` holds the given sequence. -/
def aging (messages : List MessageState) : GuildState :=
  { mu := RWMutex.free, Guild := guild, Members := GoMap.empty,
    Channels := GoMap.insert GoMap.empty "general" (channelWith messages),
    maxMessages := 10, maxMessageDuration := 20, removeDeletedMessages := false }

/-- A trace on channel `general`: an edit of `m4`, the removal of `m3` with the lock
held, and a new message `m6`, the first and last through the locking entry point. -/
def messageTrace : List Op :=
  [Op.messageAddUpdate 100 true edit4, Op.messageRemove false "general" "m3",
   Op.messageAddUpdate 100 true (message "m6" "t100")]

/-- A guild snapshot with channel `general`, member `u1` and the presence of `u1`. -/
def populated : Dstate.Guild :=
  { guild with Members := some [member1], Presences := some [presence1] }

/-- A trace on the keyed collections: updates of the member and of the presence of
`u1`, an update of channel `general`, and the removal of an unknown member. -/
def keyedTrace : List Op :=
  [Op.memberAddUpdate true member1Update, Op.presenceAddUpdate true presence1Update,
   Op.channelAddUpdate true generalUpdate, Op.memberRemove true "u9"]

end Example

/-! # Properties of the entry points -/

/-! ## Locking lemmas -/

theorem withLock_false (g : GuildState) (body : GuildState → Except Fault GuildState) :
    withLock false g body = body g := rfl

theorem withLock_eq_body {body : GuildState → Except Fault GuildState} (lock : Bool)
    (g : GuildState)
    (hmu : ∀ (s : GuildState) (m : RWMutex),
      body { s with mu := m } = (body s).map (fun t => { t with mu := m }))
    (hfree : lock = true → g.mu = RWMutex.free) :
    withLock lock g body = body g := by
  cases lock with
  | false => rfl
  | true =>
    have hg : g.mu = RWMutex.free := hfree rfl
    have h1 := hmu g g.mu
    have h2 := hmu g { g.mu with writer := true }
    simp only [withLock, GuildState.Lock, hg, RWMutex.free, if_true, and_self]
    simp only [hg, RWMutex.free] at h2
    simp only [bind, Except.bind, h2]
    cases hb : body g with
    | error e => simp [Except.map]
    | ok t =>
      rw [hb] at h1
      simp only [Except.map, Except.ok.injEq] at h1
      have ht : t.mu = RWMutex.free := by rw [h1]; exact hg
      clear h1 h2 hb
      simp only [Except.map, GuildState.Unlock, if_true]
      congr 1
      cases t
      simp only [RWMutex.free] at ht
      simp [ht]

/-! ## Maps and list helpers -/

theorem GoMap.insert_self {V : Type} (m : GoMap V) (k : String) (v : V) :
    GoMap.insert m k v k = some v := by
  simp [GoMap.insert]

theorem GoMap.insert_other {V : Type} (m : GoMap V) (k x : String) (v : V) (h : x ≠ k) :
    GoMap.insert m k v x = m x := by
  simp [GoMap.insert, h]

theorem GoMap.delete_absent {V : Type} (m : GoMap V) (k : String) (h : m k = none) :
    GoMap.delete m k = m := by
  funext x
  by_cases hx : x = k
  · simp [GoMap.delete, hx, h]
  · simp [GoMap.delete, hx]

theorem overwriteFirst_length {α : Type} (p : α → Bool) (v : α) (s : List α) :
    (overwriteFirst p v s).length = s.length := by
  induction s with
  | nil => rfl
  | cons x xs ih =>
    by_cases hp : p x = true <;> simp [overwriteFirst, hp, ih]

theorem checkAge_suffix (now : Time) (d : Duration) (messages : List MessageState) (n : Nat) :
    GuildState.MessageAddUpdate.checkAge now d messages n <:+ messages := by
  induction n with
  | zero => exact List.suffix_refl _
  | succ i ih =>
    unfold GuildState.MessageAddUpdate.checkAge
    cases messages[i]? with
    | none => exact List.suffix_refl _
    | some m =>
      simp only []
      split
      · exact ih
      · split
        · exact List.drop_suffix _ _
        · exact ih

theorem checkAge_length_le (now : Time) (d : Duration) (messages : List MessageState) (n : Nat) :
    (GuildState.MessageAddUpdate.checkAge now d messages n).length ≤ messages.length :=
  (checkAge_suffix now d messages n).length_le

theorem MessageRemove_loop_length_le (rm : Bool) (id : String) (l : List MessageState) :
    (GuildState.MessageRemove.loop rm id l).length ≤ l.length := by
  induction l with
  | nil => simp [GuildState.MessageRemove.loop]
  | cons x xs ih =>
    unfold GuildState.MessageRemove.loop
    split
    · cases rm <;> simp
    · simpa using ih

/-! ## MessageAddUpdate -/

/-- With the mutex free, `MessageAddUpdate` called with `lock = true` returns what
it returns when entered with the lock held. -/
theorem MessageAddUpdate_lock (g : GuildState) (parse : String → Time) (now : Time)
    (lock : Bool) (msg : Message) (hfree : lock = true → g.mu = RWMutex.free) :
    g.MessageAddUpdate parse now lock msg = g.MessageAddUpdate parse now false msg := by
  unfold GuildState.MessageAddUpdate
  rw [withLock_eq_body lock g _ hfree, withLock_false]
  intro s m
  simp only []
  cases s.Channels msg.ChannelID with
  | none => rfl
  | some ch =>
    simp only [bind, Except.bind]
    cases GuildState.MessageAddUpdate.addOrPatch parse s.maxMessages ch msg with
    | error e => rfl
    | ok messages =>
      simp only []
      split <;> rfl

theorem MessageAddUpdate_unknown (g : GuildState) (parse : String → Time) (now : Time)
    (msg : Message) (h : g.Channels msg.ChannelID = none) :
    g.MessageAddUpdate parse now false msg = .ok g := by
  unfold GuildState.MessageAddUpdate
  rw [withLock_false]
  simp only [h, pure, Except.pure]

theorem MessageAddUpdate_known (g : GuildState) (parse : String → Time) (now : Time)
    (msg : Message) (ch : ChannelState) (messages : List MessageState)
    (h : g.Channels msg.ChannelID = some ch)
    (ha : GuildState.MessageAddUpdate.addOrPatch parse g.maxMessages ch msg = .ok messages) :
    g.MessageAddUpdate parse now false msg =
      .ok { g with
        Channels := g.Channels.insert msg.ChannelID { ch with
          Messages :=
            if g.maxMessageDuration = 0 then messages
            else GuildState.MessageAddUpdate.checkAge now g.maxMessageDuration messages
              messages.length } } := by
  unfold GuildState.MessageAddUpdate
  rw [withLock_false]
  simp only [h, ha, bind, Except.bind, pure, Except.pure]
  by_cases hd : g.maxMessageDuration = 0
  · rw [if_pos hd, if_pos hd]
  · rw [if_neg hd, if_neg hd]

theorem addOrPatch_update (parse : String → Time) (k : Int) (ch : ChannelState)
    (msg : Message) (e : MessageState) (h : ch.Message msg.ID = some e) :
    GuildState.MessageAddUpdate.addOrPatch parse k ch msg =
      .ok (overwriteFirst (fun m => m.Message.ID == msg.ID)
        (MessageState.ParseTimes parse
          { e with Message := GuildState.MessageAddUpdate.patch e.Message msg })
        ch.Messages) := by
  simp only [GuildState.MessageAddUpdate.addOrPatch, h, pure, Except.pure]

theorem addOrPatch_create (parse : String → Time) (k : Int) (ch : ChannelState)
    (msg : Message) (h : ch.Message msg.ID = none) (hk : 0 ≤ k) :
    GuildState.MessageAddUpdate.addOrPatch parse k ch msg =
      .ok ((ch.Messages ++ [GuildState.MessageAddUpdate.newEntry parse msg]).drop
        (ch.Messages.length + 1 - k.toNat)) := by
  simp only [GuildState.MessageAddUpdate.addOrPatch, h, pure, Except.pure]
  have hk2 : ¬ k < 0 := by omega
  by_cases hgt :
      ((ch.Messages ++ [GuildState.MessageAddUpdate.newEntry parse msg]).length : Int) > k
  · rw [if_pos hgt, if_neg hk2]
    simp
  · rw [if_neg hgt]
    have : ch.Messages.length + 1 - k.toNat = 0 := by
      simp only [List.length_append, List.length_singleton] at hgt
      omega
    rw [this, List.drop_zero]

theorem addOrPatch_length (parse : String → Time) (k : Int) (ch : ChannelState)
    (msg : Message) (hk : 0 ≤ k) (hlen : (ch.Messages.length : Int) ≤ k) :
    ∃ messages, GuildState.MessageAddUpdate.addOrPatch parse k ch msg = .ok messages ∧
      (messages.length : Int) ≤ k := by
  cases h : ch.Message msg.ID with
  | some e =>
    exact ⟨_, addOrPatch_update parse k ch msg e h, by rw [overwriteFirst_length]; exact hlen⟩
  | none =>
    refine ⟨_, addOrPatch_create parse k ch msg h hk, ?_⟩
    simp only [List.length_drop, List.length_append, List.length_singleton]
    omega

/-! ## MessageRemove -/

theorem MessageRemove_unlocked (g : GuildState) (channelID messageID : String) :
    g.MessageRemove false channelID messageID =
      .ok (match g.Channels channelID with
        | none => g
        | some channel =>
          { g with
            Channels := g.Channels.insert channelID { channel with
              Messages := GuildState.MessageRemove.loop g.removeDeletedMessages messageID
                channel.Messages } }) := by
  unfold GuildState.MessageRemove
  rw [withLock_false]
  simp only [GuildState.Channel, withRLock, bind, Except.bind, pure, Except.pure]
  cases g.Channels channelID <;> rfl

theorem MessageRemove_locked (g : GuildState) (channelID messageID : String) :
    g.MessageRemove true channelID messageID = .error .deadlock := by
  unfold GuildState.MessageRemove
  simp only [withLock, GuildState.Lock, if_true, bind, Except.bind]
  by_cases hfree : g.mu.writer = false ∧ g.mu.readers = 0
  · rw [if_pos hfree]
    simp [GuildState.Channel, withRLock, GuildState.RLock, bind, Except.bind]
  · rw [if_neg hfree]

/-- C1 (the code departs from the claim): with `maxMessageDuration = 20`, after `m1`
(created at 10) and then `m2` (created at 95) were added, the add at time 95 leaves
`m1` in the channel although its age `95 - 10 = 85` exceeds 20 and its creation
time is not zero: the age check cuts the sequence at the expired entry, not after
it. -/
theorem age_check_retains_expired_entry :
    Example.held Example.ageScenario = some [("m1", 10, false), ("m2", 95, false)] ∧
      Time.IsZero 10 = false ∧ Time.Sub 95 10 > 20 := by
  refine ⟨by rfl, by decide, by decide⟩

/-- C2 (the code departs from the claim): a voice-state update with an empty channel
reference for a user without entry falls through to the insert: on an empty
voice-state list the update of `u1` is appended, and the lookup of `u1` finds it. -/
theorem left_signal_for_untracked_user_is_appended :
    (Example.leaveScenario.map fun g => g.Guild.VoiceStates)
        = .ok (some [Example.leftVoice.VoiceState]) ∧
      (Example.leaveScenario.bind fun g => g.VoiceState true "u1")
        = .ok (some Example.leftVoice.VoiceState) := by
  exact ⟨rfl, rfl⟩

/-- The channel `c` after `MessageAddUpdate`: every channel that was known is still
known, and its message sequence is a suffix of the sequence that the add-or-update
step leaves (the sequence itself for any other channel). -/
theorem MessageAddUpdate_channel (g : GuildState) (parse : String → Time) (now : Time)
    (msg : Message) (c : String) (ch : ChannelState) (k : Int)
    (hk : g.maxMessages = k) (hmax : 0 ≤ k) (hc : g.Channels c = some ch)
    (hlen : (ch.Messages.length : Int) ≤ k) :
    ∃ g' ch', g.MessageAddUpdate parse now false msg = .ok g' ∧
      g'.maxMessages = k ∧ g'.Channels c = some ch' ∧ (ch'.Messages.length : Int) ≤ k := by
  subst hk
  by_cases hid : msg.ChannelID = c
  · subst hid
    obtain ⟨messages, ha, hl⟩ := addOrPatch_length parse g.maxMessages ch msg hmax hlen
    refine ⟨_, _, MessageAddUpdate_known g parse now msg ch messages hc ha, rfl,
      GoMap.insert_self _ _ _, ?_⟩
    simp only []
    split
    · exact hl
    · have := checkAge_length_le now g.maxMessageDuration messages messages.length
      omega
  · cases hm : g.Channels msg.ChannelID with
    | none => exact ⟨g, ch, MessageAddUpdate_unknown g parse now msg hm, rfl, hc, hlen⟩
    | some ch2 =>
      have hret : ∃ messages,
          GuildState.MessageAddUpdate.addOrPatch parse g.maxMessages ch2 msg = .ok messages := by
        cases h : ch2.Message msg.ID with
        | some e => exact ⟨_, addOrPatch_update parse g.maxMessages ch2 msg e h⟩
        | none => exact ⟨_, addOrPatch_create parse g.maxMessages ch2 msg h hmax⟩
      obtain ⟨messages, ha⟩ := hret
      refine ⟨_, ch, MessageAddUpdate_known g parse now msg ch2 messages hm ha, rfl, ?_, hlen⟩
      simp only []
      rw [GoMap.insert_other _ _ _ _ (fun h => hid h.symm), hc]

/-- C3: count bound invariant.  Let `maxMessages ≥ 0` and let channel `c` hold at
most `maxMessages` messages.  Then (1) every `MessageAddUpdate` call, whatever the
message, the time and `maxMessageDuration`, returns and leaves at most
`maxMessages` messages in `c`; (2) `MessageRemove` entered with the lock held
returns and leaves at most `maxMessages` messages in `c`; (3) in whatever state a
`MessageRemove` call returns, `c` holds at most `maxMessages` messages; (4) when
the create path overflows, the sequence left by the count eviction is the old
sequence with the new entry appended and exactly the excess entries at the front
dropped: the final sequence is a suffix of it, and equal to it when the age check
is disabled. -/
theorem count_bound_invariant (g : GuildState) (c : String) (ch : ChannelState)
    (parse : String → Time) (now : Time) (lock : Bool) (msg : Message)
    (channelID messageID : String)
    (hmax : 0 ≤ g.maxMessages) (hc : g.Channels c = some ch)
    (hlen : (ch.Messages.length : Int) ≤ g.maxMessages)
    (hfree : lock = true → g.mu = RWMutex.free) :
    (∃ g' ch', g.MessageAddUpdate parse now lock msg = .ok g' ∧
        g'.maxMessages = g.maxMessages ∧ g'.Channels c = some ch' ∧
        (ch'.Messages.length : Int) ≤ g.maxMessages) ∧
    (∃ g' ch', g.MessageRemove false channelID messageID = .ok g' ∧
        g'.maxMessages = g.maxMessages ∧ g'.Channels c = some ch' ∧
        (ch'.Messages.length : Int) ≤ g.maxMessages) ∧
    (∀ g', g.MessageRemove lock channelID messageID = .ok g' →
        ∃ ch', g'.maxMessages = g.maxMessages ∧ g'.Channels c = some ch' ∧
          (ch'.Messages.length : Int) ≤ g.maxMessages) ∧
    (msg.ChannelID = c → ch.Message msg.ID = none →
      g.maxMessages < (ch.Messages.length : Int) + 1 →
        ∃ g' ch', g.MessageAddUpdate parse now lock msg = .ok g' ∧
          g'.Channels c = some ch' ∧
          ch'.Messages <:+ (ch.Messages ++ [GuildState.MessageAddUpdate.newEntry parse msg]).drop
            (ch.Messages.length + 1 - g.maxMessages.toNat) ∧
          (g.maxMessageDuration = 0 →
            ch'.Messages = (ch.Messages ++ [GuildState.MessageAddUpdate.newEntry parse msg]).drop
              (ch.Messages.length + 1 - g.maxMessages.toNat))) := by
  have hrem : ∃ g' ch', g.MessageRemove false channelID messageID = .ok g' ∧
      g'.maxMessages = g.maxMessages ∧ g'.Channels c = some ch' ∧
      (ch'.Messages.length : Int) ≤ g.maxMessages := by
    refine ⟨_, ?_, MessageRemove_unlocked g channelID messageID, ?_⟩
    · exact match g.Channels channelID with
        | none => ch
        | some channel =>
          if c = channelID then
            { channel with
              Messages := GuildState.MessageRemove.loop g.removeDeletedMessages messageID
                channel.Messages }
          else ch
    · by_cases hid : c = channelID
      · subst hid
        rw [hc]
        refine ⟨rfl, ?_, ?_⟩
        · simp [GoMap.insert_self]
        · simp only [if_true]
          have := MessageRemove_loop_length_le g.removeDeletedMessages messageID ch.Messages
          omega
      · cases hm : g.Channels channelID with
        | none => exact ⟨rfl, hc, hlen⟩
        | some ch2 =>
          refine ⟨rfl, ?_, ?_⟩
          · simp only [if_neg hid]
            rw [GoMap.insert_other _ _ _ _ hid, hc]
          · simp only [if_neg hid]
            exact hlen
  refine ⟨?_, hrem, ?_, ?_⟩
  · rw [MessageAddUpdate_lock g parse now lock msg hfree]
    exact MessageAddUpdate_channel g parse now msg c ch g.maxMessages rfl hmax hc hlen
  · intro g' hg'
    cases lock with
    | true => rw [MessageRemove_locked] at hg'; cases hg'
    | false =>
      obtain ⟨g2, ch2, h2, h3, h4, h5⟩ := hrem
      rw [h2] at hg'
      cases hg'
      exact ⟨ch2, h3, h4, h5⟩
  · intro hid hnone _
    subst hid
    rw [MessageAddUpdate_lock g parse now lock msg hfree]
    refine ⟨_, _, MessageAddUpdate_known g parse now msg ch _ hc
      (addOrPatch_create parse g.maxMessages ch msg hnone hmax), GoMap.insert_self _ _ _, ?_, ?_⟩
    · simp only []
      split
      · exact List.suffix_refl _
      · exact checkAge_suffix _ _ _ _
    · intro hd
      simp only [if_pos hd]

theorem drop_append_drop {α : Type} (H : List α) (e : α) (k : Nat) :
    (H.drop (H.length - k) ++ [e]).drop ((H.drop (H.length - k)).length + 1 - k) =
      (H ++ [e]).drop ((H ++ [e]).length - k) := by
  have h1 : H.drop (H.length - k) ++ [e] = (H ++ [e]).drop (H.length - k) := by
    rw [List.drop_append_of_le_length (by omega)]
  rw [h1, List.drop_drop]
  congr 1
  simp only [List.length_drop, List.length_append, List.length_singleton]
  omega

theorem Message_none_of_fresh (ch : ChannelState) (id : String)
    (h : ∀ m ∈ ch.Messages, m.Message.ID ≠ id) : ch.Message id = none := by
  unfold ChannelState.Message
  rw [List.find?_eq_none]
  intro m hm
  simpa using h m hm

theorem addAll_history (parse : String → Time) (lock : Bool) (c : String) (k : Nat)
    (events : List (Time × Message)) :
    ∀ (g : GuildState) (ch : ChannelState) (H : List MessageState),
      g.maxMessageDuration = 0 → g.maxMessages = (k : Int) → g.Channels c = some ch →
      ch.Messages = H.drop (H.length - k) →
      (∀ e ∈ events, e.2.ChannelID = c) → (events.map fun e => e.2.ID).Nodup →
      (∀ h ∈ H, ∀ e ∈ events, h.Message.ID ≠ e.2.ID) →
      (lock = true → g.mu = RWMutex.free) →
      ∃ g', addAll parse lock events g = .ok g' ∧
        g'.Channels c = some { ch with
          Messages :=
            (H ++ events.map fun e => GuildState.MessageAddUpdate.newEntry parse e.2).drop
              ((H ++ events.map fun e =>
                GuildState.MessageAddUpdate.newEntry parse e.2).length - k) } := by
  induction events with
  | nil =>
    intro g ch H _ _ hc hH _ _ _ _
    refine ⟨g, rfl, ?_⟩
    rw [hc]
    simp only [List.map_nil, List.append_nil, ← hH]
  | cons ev rest ih =>
    intro g ch H hage hk hc hH hch hnd hfresh hfree
    obtain ⟨now, msg⟩ := ev
    have hmc : msg.ChannelID = c := hch (now, msg) (List.mem_cons_self _ _)
    subst hmc
    have hnone : ch.Message msg.ID = none := by
      apply Message_none_of_fresh
      intro m hm
      rw [hH] at hm
      exact hfresh m (List.mem_of_mem_drop hm) (now, msg) (List.mem_cons_self _ _)
    have hcreate := addOrPatch_create parse g.maxMessages ch msg hnone (by omega)
    have hstep := MessageAddUpdate_known g parse now msg ch _ hc hcreate
    rw [if_pos hage] at hstep
    simp only [List.map_cons, List.nodup_cons] at hnd
    obtain ⟨g', hg', hch'⟩ := ih
      { g with
        Channels := g.Channels.insert msg.ChannelID { ch with
          Messages :=
            (ch.Messages ++ [GuildState.MessageAddUpdate.newEntry parse msg]).drop
              (ch.Messages.length + 1 - g.maxMessages.toNat) } }
      { ch with
        Messages :=
          (ch.Messages ++ [GuildState.MessageAddUpdate.newEntry parse msg]).drop
            (ch.Messages.length + 1 - g.maxMessages.toNat) }
      (H ++ [GuildState.MessageAddUpdate.newEntry parse msg])
      hage hk (GoMap.insert_self _ _ _)
      (by
        show List.drop _ _ = _
        rw [hk, Int.toNat_ofNat, hH]
        exact drop_append_drop H _ k)
      (fun e he => hch e (List.mem_cons_of_mem _ he)) hnd.2
      (by
        intro h hh e he
        rcases List.mem_append.mp hh with hh | hh
        · exact hfresh h hh e (List.mem_cons_of_mem _ he)
        · simp only [List.mem_singleton] at hh
          subst hh
          intro heq
          apply hnd.1
          simp only [List.mem_map]
          exact ⟨e, he, heq.symm⟩)
      hfree
    refine ⟨g', ?_, ?_⟩
    · simp only [addAll, bind, Except.bind]
      rw [MessageAddUpdate_lock g parse now lock msg hfree, hstep]
      exact hg'
    · rw [hch']
      simp only [List.map_cons, List.append_assoc, List.singleton_append]

/-- C4: most-recent retention.  With the age check disabled and `maxMessages ≥ 0`,
adding `n` messages with pairwise distinct IDs in order to a known channel whose
sequence is empty returns, and leaves the channel holding exactly the last
`min n maxMessages` of the messages added, oldest first: the payloads of the
retained entries are those messages, each entry is not deleted and carries the
parsed timestamps of its message, and the channel metadata is unchanged. -/
theorem most_recent_retention (g : GuildState) (c : String) (ch : ChannelState)
    (parse : String → Time) (lock : Bool) (events : List (Time × Message))
    (hage : g.maxMessageDuration = 0) (hmax : 0 ≤ g.maxMessages)
    (hc : g.Channels c = some ch) (hempty : ch.Messages = [])
    (hch : ∀ e ∈ events, e.2.ChannelID = c) (hids : (events.map fun e => e.2.ID).Nodup)
    (hfree : lock = true → g.mu = RWMutex.free) :
    ∃ g' ch', addAll parse lock events g = .ok g' ∧
      g'.Channels c = some ch' ∧ ch'.Channel = ch.Channel ∧
      (ch'.Messages.map fun m => m.Message) =
        (events.map fun e => e.2).drop (events.length - g.maxMessages.toNat) ∧
      ch'.Messages.length = min events.length g.maxMessages.toNat ∧
      ch'.Messages =
        (events.map fun e =>
          ({ Message := e.2, ParsedCreated := parse e.2.Timestamp,
             ParsedEdited := parse e.2.EditedTimestamp, Deleted := false } : MessageState)).drop
          (events.length - g.maxMessages.toNat) := by
  obtain ⟨g', h1, h2⟩ := addAll_history parse lock c g.maxMessages.toNat events g ch []
    hage (by omega) hc (by simp [hempty]) hch hids (by simp) hfree
  have hentry : (fun e : Time × Message => GuildState.MessageAddUpdate.newEntry parse e.2) =
      fun e =>
        ({ Message := e.2, ParsedCreated := parse e.2.Timestamp,
           ParsedEdited := parse e.2.EditedTimestamp, Deleted := false } : MessageState) := rfl
  simp only [List.nil_append, List.length_map, hentry] at h2
  refine ⟨g', _, h1, h2, rfl, ?_, ?_, rfl⟩
  · simp only [List.map_drop, List.map_map]
    rfl
  · simp only [List.length_drop, List.length_map]
    omega

/-- C4, on an instance: with `maxMessages = 3`, adding `m1 .. m5` to the empty
channel leaves exactly `[m3, m4, m5]`: the three entries hold the messages `m3`,
`m4`, `m5` as they were added, with their parsed creation times, not deleted. -/
theorem most_recent_retention_witness :
    ∃ g' ch', addAll Example.parseTime true Example.five (Example.cache [] false) = .ok g' ∧
      g'.Channels "general" = some ch' ∧
      (ch'.Messages.map fun m => m.Message) =
        [Example.message "m3" "t95", Example.message "m4" "t95",
          Example.message "m5" "t100"] ∧
      (ch'.Messages.map fun m => (m.Message.ID, m.Message.ChannelID, m.Message.Content,
          m.ParsedCreated, m.Deleted)) =
        [("m3", "general", "hello", 95, false), ("m4", "general", "hello", 95, false),
          ("m5", "general", "hello", 100, false)] ∧
      ch'.Messages.length = 3 := by
  obtain ⟨g', ch', h, hc, _, hm, hl, hall⟩ :=
    most_recent_retention (Example.cache [] false) "general" (Example.channelWith [])
      Example.parseTime true Example.five rfl (by decide) rfl rfl (by decide) (by decide)
      (fun _ => rfl)
  refine ⟨g', ch', h, hc, hm, ?_, hl⟩
  rw [hall]
  rfl

/-- C3, on an instance: adding `m6` to the full channel `[m3, m4, m5]` of an
aggregate with `maxMessages = 3` returns and leaves at most 3 messages. -/
theorem count_bound_invariant_witness :
    (0 : Int) ≤ (Example.cache [Example.entry "m3" "t95", Example.entry "m4" "t95",
        Example.entry "m5" "t100"] false).maxMessages ∧
      ∃ g' ch', (Example.cache [Example.entry "m3" "t95", Example.entry "m4" "t95",
          Example.entry "m5" "t100"] false).MessageAddUpdate Example.parseTime 100 true
          (Example.message "m6" "t100") = .ok g' ∧
        g'.maxMessages = 3 ∧ g'.Channels "general" = some ch' ∧
        (ch'.Messages.length : Int) ≤ 3 :=
  ⟨by decide, (count_bound_invariant _ "general"
    (Example.channelWith [Example.entry "m3" "t95", Example.entry "m4" "t95",
      Example.entry "m5" "t100"])
    Example.parseTime 100 true (Example.message "m6" "t100") "general" "m4"
    (by decide) rfl (by decide) (fun _ => rfl)).1⟩

/-! ## Removal of messages -/

theorem MessageRemove_loop_absent (rm : Bool) (id : String) (l : List MessageState)
    (h : ∀ m ∈ l, m.Message.ID ≠ id) : GuildState.MessageRemove.loop rm id l = l := by
  induction l with
  | nil => rfl
  | cons x xs ih =>
    have hx : (x.Message.ID == id) = false := by simpa using h x (List.mem_cons_self _ _)
    simp only [GuildState.MessageRemove.loop, hx, Bool.false_eq_true, if_false]
    rw [ih (fun m hm => h m (List.mem_cons_of_mem _ hm))]

/-- Hard delete on a sequence with pairwise distinct IDs: the entries with another
ID remain, in order. -/
theorem MessageRemove_loop_hard (id : String) (l : List MessageState)
    (hnd : (l.map fun m => m.Message.ID).Nodup) :
    GuildState.MessageRemove.loop true id l = l.filter (fun m => m.Message.ID != id) := by
  induction l with
  | nil => rfl
  | cons x xs ih =>
    simp only [List.map_cons, List.nodup_cons] at hnd
    by_cases hx : x.Message.ID = id
    · have hxs : ∀ m ∈ xs, m.Message.ID ≠ id := by
        intro m hm heq
        apply hnd.1
        rw [hx, ← heq]
        exact List.mem_map_of_mem _ hm
      have hf : xs.filter (fun m => m.Message.ID != id) = xs := by
        rw [List.filter_eq_self]
        intro m hm
        simpa using hxs m hm
      simp [GuildState.MessageRemove.loop, hx, hf]
    · have hx2 : (x.Message.ID == id) = false := by simpa using hx
      simp [GuildState.MessageRemove.loop, hx2, hx, ih hnd.2]

/-- Tombstoning on a sequence with pairwise distinct IDs: the entry with the given
ID is flagged, every other entry is unchanged, the order is kept. -/
theorem MessageRemove_loop_soft (id : String) (l : List MessageState)
    (hnd : (l.map fun m => m.Message.ID).Nodup) :
    GuildState.MessageRemove.loop false id l =
      l.map (fun m => if m.Message.ID = id then { m with Deleted := true } else m) := by
  induction l with
  | nil => rfl
  | cons x xs ih =>
    simp only [List.map_cons, List.nodup_cons] at hnd
    by_cases hx : x.Message.ID = id
    · have hxs : ∀ m ∈ xs, m.Message.ID ≠ id := by
        intro m hm heq
        apply hnd.1
        rw [hx, ← heq]
        exact List.mem_map_of_mem _ hm
      have hf : xs.map (fun m => if m.Message.ID = id then { m with Deleted := true } else m)
          = xs := by
        conv_rhs => rw [← List.map_id xs]
        apply List.map_congr_left
        intro m hm
        simp [hxs m hm]
      simp [GuildState.MessageRemove.loop, hx, hf]
    · have hx2 : (x.Message.ID == id) = false := by simpa using hx
      simp [GuildState.MessageRemove.loop, hx2, hx, ih hnd.2]

/-- C5 (the code departs from the claim): on the channel `[m3, m4, m5]`,
`MessageRemove` called with `lock = true` never reaches the removal loop: it takes
the write lock and then looks the channel up with the same `lock` flag, which asks
for the read lock of the mutex it holds.  Called with the lock already held
(`lock = false`), the hard delete of `m4` leaves `[m3, m5]`, and the tombstoning
of `m3` in `[m3, m5]` leaves `[m3 (deleted), m5]`. -/
theorem message_remove_deadlocks_when_locking :
    (Example.cache [Example.entry "m3" "t95", Example.entry "m4" "t95",
        Example.entry "m5" "t100"] true).MessageRemove true "general" "m4"
      = .error .deadlock ∧
    (Example.cache [Example.entry "m3" "t95", Example.entry "m5" "t100"]
        false).MessageRemove true "general" "m3"
      = .error .deadlock ∧
    Example.held ((Example.cache [Example.entry "m3" "t95", Example.entry "m4" "t95",
        Example.entry "m5" "t100"] true).MessageRemove false "general" "m4")
      = some [("m3", 95, false), ("m5", 100, false)] ∧
    Example.held ((Example.cache [Example.entry "m3" "t95", Example.entry "m5" "t100"]
        false).MessageRemove false "general" "m3")
      = some [("m3", 95, true), ("m5", 100, false)] :=
  ⟨rfl, rfl, rfl, rfl⟩

/-! ## Guild metadata update -/

theorem GuildUpdate_lock (g : GuildState) (lock : Bool) (newGuild : Guild)
    (hfree : lock = true → g.mu = RWMutex.free) :
    g.GuildUpdate lock newGuild = g.GuildUpdate false newGuild := by
  unfold GuildState.GuildUpdate
  rw [withLock_eq_body lock g _ hfree, withLock_false]
  intro s m
  rfl

/-- C6: guild metadata update backfill.  `GuildUpdate` returns; afterwards each of
the six lists of the stored guild is the incoming list when that is non-nil
(possibly empty) and the previously stored list when the incoming list is nil;
every other field of the stored guild is the incoming value; nothing else of the
aggregate changes.  In particular, for a snapshot that supplies a role list and
none of the other five lists, the role list is replaced and the emoji, member,
presence, channel and voice-state lists are as before. -/
theorem guild_update_backfill (g : GuildState) (lock : Bool) (newGuild : Guild)
    (hfree : lock = true → g.mu = RWMutex.free) :
    ∃ g', g.GuildUpdate lock newGuild = .ok g' ∧
      g'.Guild.Roles = (if newGuild.Roles = none then g.Guild.Roles else newGuild.Roles) ∧
      g'.Guild.Emojis = (if newGuild.Emojis = none then g.Guild.Emojis else newGuild.Emojis) ∧
      g'.Guild.Members =
        (if newGuild.Members = none then g.Guild.Members else newGuild.Members) ∧
      g'.Guild.Presences =
        (if newGuild.Presences = none then g.Guild.Presences else newGuild.Presences) ∧
      g'.Guild.Channels =
        (if newGuild.Channels = none then g.Guild.Channels else newGuild.Channels) ∧
      g'.Guild.VoiceStates =
        (if newGuild.VoiceStates = none then g.Guild.VoiceStates else newGuild.VoiceStates) ∧
      (g'.Guild.ID = newGuild.ID ∧ g'.Guild.Name = newGuild.Name ∧
        g'.Guild.Icon = newGuild.Icon ∧ g'.Guild.Region = newGuild.Region ∧
        g'.Guild.OwnerID = newGuild.OwnerID ∧
        g'.Guild.VerificationLevel = newGuild.VerificationLevel) ∧
      (g'.mu = g.mu ∧ g'.Members = g.Members ∧ g'.Channels = g.Channels ∧
        g'.maxMessages = g.maxMessages ∧ g'.maxMessageDuration = g.maxMessageDuration ∧
        g'.removeDeletedMessages = g.removeDeletedMessages) ∧
      (newGuild.Roles ≠ none → newGuild.Emojis = none → newGuild.Members = none →
        newGuild.Presences = none → newGuild.Channels = none → newGuild.VoiceStates = none →
        g'.Guild.Roles = newGuild.Roles ∧ g'.Guild.Emojis = g.Guild.Emojis ∧
        g'.Guild.Members = g.Guild.Members ∧ g'.Guild.Presences = g.Guild.Presences ∧
        g'.Guild.Channels = g.Guild.Channels ∧ g'.Guild.VoiceStates = g.Guild.VoiceStates) := by
  rw [GuildUpdate_lock g lock newGuild hfree]
  unfold GuildState.GuildUpdate
  rw [withLock_false]
  refine ⟨_, rfl, ?_⟩
  obtain ⟨id, name, icon, region, owner, level, roles, emojis, members, presences, channels,
    voiceStates⟩ := newGuild
  cases roles <;> cases emojis <;> cases members <;> cases presences <;> cases channels <;>
    cases voiceStates <;> simp

/-- C6, on an instance: a snapshot supplying only a new role list replaces the role
list of the stored guild and leaves its other lists as they were. -/
theorem guild_update_backfill_witness :
    ∃ g', Example.stored.GuildUpdate true Example.rolesOnly = .ok g' ∧
      g'.Guild.Roles = some [Example.role "r1", Example.role "r2"] ∧
      g'.Guild.Emojis = Example.storedGuild.Emojis ∧
      g'.Guild.Members = Example.storedGuild.Members ∧
      g'.Guild.Channels = Example.storedGuild.Channels ∧
      g'.Guild.VoiceStates = Example.storedGuild.VoiceStates ∧
      g'.Guild.Name = "new name" := by
  obtain ⟨g', h, _, _, _, _, _, _, hn, _, hr⟩ :=
    guild_update_backfill Example.stored true Example.rolesOnly (fun _ => rfl)
  obtain ⟨h1, h2, h3, _, h5, h6⟩ := hr (by decide) rfl rfl rfl rfl rfl
  exact ⟨g', h, h1, h2, h3, h5, h6, hn.2.1⟩

/-! ## Member merge -/

theorem MemberAddUpdate_lock (g : GuildState) (lock : Bool) (newMember : Member)
    (hfree : lock = true → g.mu = RWMutex.free) :
    g.MemberAddUpdate lock newMember = g.MemberAddUpdate false newMember := by
  unfold GuildState.MemberAddUpdate
  rw [withLock_eq_body lock g _ hfree, withLock_false]
  intro s m
  simp only []
  cases s.Members newMember.User.ID with
  | none => rfl
  | some existing =>
    obtain ⟨member, presence⟩ := existing
    cases member <;> rfl

/-- C7: member patch absence rule.  `MemberAddUpdate` returns; in the member
collection it changes only the entry of the incoming user ID, and it leaves the
channel collection and the mutex as they were.  (1) On an entry with a membership
half, the presence half is kept and the membership half is patched: `JoinedAt` is the
incoming value if that is non-empty and the stored value otherwise, `Roles` is the
incoming list if that is non-nil (even when empty) and the stored list otherwise,
`Nick` and `User` are the incoming values, and `GuildID`, `Deaf`, `Mute` are
unchanged.  (2) Without entry, a new entry holding the incoming record and no
presence is created.  (3) On an entry without membership half, the incoming record
is attached as it is. -/
theorem member_patch_absence_rule (g : GuildState) (lock : Bool) (newMember : Member)
    (hfree : lock = true → g.mu = RWMutex.free) :
    ∃ g', g.MemberAddUpdate lock newMember = .ok g' ∧
      (∀ id, id ≠ newMember.User.ID → g'.Members id = g.Members id) ∧
      (g'.mu = g.mu ∧ g'.Channels = g.Channels) ∧
      (∀ existing m, g.Members newMember.User.ID = some existing → existing.Member = some m →
        ∃ m', g'.Members newMember.User.ID
            = some { Member := some m', Presence := existing.Presence } ∧
          m'.JoinedAt = (if newMember.JoinedAt = "" then m.JoinedAt else newMember.JoinedAt) ∧
          m'.Roles = (if newMember.Roles = none then m.Roles else newMember.Roles) ∧
          m'.Nick = newMember.Nick ∧ m'.User = newMember.User ∧
          m'.GuildID = m.GuildID ∧ m'.Deaf = m.Deaf ∧ m'.Mute = m.Mute) ∧
      (g.Members newMember.User.ID = none →
        g'.Members newMember.User.ID = some { Member := some newMember, Presence := none }) ∧
      (∀ existing, g.Members newMember.User.ID = some existing → existing.Member = none →
        g'.Members newMember.User.ID
          = some { Member := some newMember, Presence := existing.Presence }) := by
  rw [MemberAddUpdate_lock g lock newMember hfree]
  unfold GuildState.MemberAddUpdate
  rw [withLock_false]
  cases hm : g.Members newMember.User.ID with
  | none =>
    refine ⟨_, rfl, ?_, ⟨rfl, rfl⟩, ?_, ?_, ?_⟩
    · intro id hid
      exact GoMap.insert_other _ _ _ _ hid
    · intro existing m h
      cases h
    · intro _
      exact GoMap.insert_self _ _ _
    · intro existing h
      cases h
  | some existing =>
    cases he : existing.Member with
    | none =>
      simp only [he]
      refine ⟨_, rfl, ?_, ⟨rfl, rfl⟩, ?_, ?_, ?_⟩
      · intro id hid
        exact GoMap.insert_other _ _ _ _ hid
      · intro existing2 m h h2
        cases h
        rw [he] at h2
        cases h2
      · intro h
        cases h
      · intro existing2 h _
        cases h
        exact GoMap.insert_self _ _ _
    | some m =>
      simp only [he]
      refine ⟨_, rfl, ?_, ⟨rfl, rfl⟩, ?_, ?_, ?_⟩
      · intro id hid
        exact GoMap.insert_other _ _ _ _ hid
      · intro existing2 m2 h h2
        cases h
        rw [he] at h2
        cases h2
        refine ⟨GuildState.MemberAddUpdate.patch m newMember, GoMap.insert_self _ _ _, ?_⟩
        unfold GuildState.MemberAddUpdate.patch
        obtain ⟨gid, joined, nick, deaf, mute, user, roles⟩ := newMember
        by_cases hj : joined = "" <;> cases roles <;> simp [hj]
      · intro h
        cases h
      · intro existing2 h h2
        cases h
        rw [he] at h2
        cases h2

/-- C7, on an instance: updating the stored member `u1` with an empty join
timestamp and an empty non-nil role list keeps the stored join timestamp, replaces
the role list by the empty list and takes the incoming nickname and identity. -/
theorem member_patch_absence_rule_witness :
    ∃ g' m', Example.withMember.MemberAddUpdate true Example.member1Update = .ok g' ∧
      g'.Members "u1" = some { Member := some m', Presence := none } ∧
      m'.JoinedAt = "t10" ∧ m'.Roles = some [] ∧ m'.Nick = "uno" ∧
      m'.User = Example.member1Update.User ∧ m'.GuildID = "guild" ∧ m'.Deaf = false := by
  obtain ⟨g', h, _, _, hp, _, _⟩ :=
    member_patch_absence_rule Example.withMember true Example.member1Update (fun _ => rfl)
  obtain ⟨m', h1, h2, h3, h4, h5, h6, h7, _⟩ :=
    hp { Member := some Example.member1, Presence := none } Example.member1 rfl rfl
  exact ⟨g', m', h, h1, h2, h3, h4, h5, h6, h7⟩

/-! ## Channel merge -/

theorem withLockRet_eq_body {α : Type} {body : GuildState → Except Fault (α × GuildState)}
    (lock : Bool) (g : GuildState)
    (hmu : ∀ (s : GuildState) (m : RWMutex),
      body { s with mu := m } = (body s).map (fun r => (r.1, { r.2 with mu := m })))
    (hfree : lock = true → g.mu = RWMutex.free) :
    withLockRet lock g body = body g := by
  cases lock with
  | false => rfl
  | true =>
    have hg : g.mu = RWMutex.free := hfree rfl
    have h1 := hmu g g.mu
    have h2 := hmu g { g.mu with writer := true }
    simp only [withLockRet, GuildState.Lock, hg, RWMutex.free, if_true, and_self]
    simp only [hg, RWMutex.free] at h2
    simp only [bind, Except.bind, h2]
    cases hb : body g with
    | error e => simp [Except.map]
    | ok r =>
      rw [hb] at h1
      simp only [Except.map, Except.ok.injEq] at h1
      have ht : r.2.mu = RWMutex.free := by rw [h1]; exact hg
      clear h1 h2 hb
      simp only [Except.map, GuildState.Unlock, if_true, pure, Except.pure]
      congr 1
      obtain ⟨a, t⟩ := r
      cases t
      simp only [RWMutex.free] at ht
      simp [ht]

theorem ChannelAddUpdate_lock (g : GuildState) (lock : Bool) (newChannel : Channel)
    (hfree : lock = true → g.mu = RWMutex.free) :
    g.ChannelAddUpdate lock newChannel = g.ChannelAddUpdate false newChannel := by
  unfold GuildState.ChannelAddUpdate
  rw [withLockRet_eq_body lock g _ hfree]
  · rfl
  · intro s m
    simp only []
    cases s.Channels newChannel.ID <;> rfl

/-- C8: channel merge.  `ChannelAddUpdate` returns the entry that is stored under
`newChannel.ID` afterwards; it changes no other channel entry and leaves the member
collection and the mutex as they were.  On an existing entry the
message sequence is unchanged, the metadata is `newChannel` except that
`PermissionOverwrites` is the stored list when the incoming one is nil and
`Recipient` is the stored one when the incoming record is private with a nil
recipient, and the set of channel keys is unchanged.  Without entry, the new entry
holds `newChannel` and an empty message sequence. -/
theorem channel_merge (g : GuildState) (lock : Bool) (newChannel : Channel)
    (hfree : lock = true → g.mu = RWMutex.free) :
    ∃ entry g', g.ChannelAddUpdate lock newChannel = .ok (entry, g') ∧
      g'.Channels newChannel.ID = some entry ∧
      (∀ id, id ≠ newChannel.ID → g'.Channels id = g.Channels id) ∧
      (g'.mu = g.mu ∧ g'.Members = g.Members) ∧
      (∀ existing, g.Channels newChannel.ID = some existing →
        entry.Messages = existing.Messages ∧
        entry.Channel.PermissionOverwrites =
          (if newChannel.PermissionOverwrites = none then existing.Channel.PermissionOverwrites
            else newChannel.PermissionOverwrites) ∧
        entry.Channel.Recipient =
          (if newChannel.IsPrivate = true ∧ newChannel.Recipient = none then
            existing.Channel.Recipient
          else newChannel.Recipient) ∧
        (entry.Channel.ID = newChannel.ID ∧ entry.Channel.GuildID = newChannel.GuildID ∧
          entry.Channel.Name = newChannel.Name ∧ entry.Channel.Topic = newChannel.Topic ∧
          entry.Channel.Type_ = newChannel.Type_ ∧
          entry.Channel.Position = newChannel.Position ∧
          entry.Channel.IsPrivate = newChannel.IsPrivate) ∧
        (∀ id, (g'.Channels id).isSome = (g.Channels id).isSome)) ∧
      (g.Channels newChannel.ID = none →
        entry = { Channel := newChannel, Messages := [] }) := by
  rw [ChannelAddUpdate_lock g lock newChannel hfree]
  unfold GuildState.ChannelAddUpdate
  simp only [withLockRet, Bool.false_eq_true, if_false]
  cases hm : g.Channels newChannel.ID with
  | none =>
    refine ⟨_, _, rfl, GoMap.insert_self _ _ _, ?_, ⟨rfl, rfl⟩, ?_, fun _ => rfl⟩
    · intro id hid
      exact GoMap.insert_other _ _ _ _ hid
    · intro existing h
      cases h
  | some existing =>
    refine ⟨_, _, rfl, GoMap.insert_self _ _ _, ?_, ⟨rfl, rfl⟩, ?_, ?_⟩
    · intro id hid
      exact GoMap.insert_other _ _ _ _ hid
    · intro existing2 h
      cases h
      refine ⟨rfl, ?_, ?_, ?_, ?_⟩
      · unfold GuildState.ChannelAddUpdate.patch
        obtain ⟨id, gid, name, topic, ty, pos, priv, recipient, overwrites⟩ := newChannel
        cases overwrites <;> cases priv <;> cases recipient <;> simp
      · unfold GuildState.ChannelAddUpdate.patch
        obtain ⟨id, gid, name, topic, ty, pos, priv, recipient, overwrites⟩ := newChannel
        cases overwrites <;> cases priv <;> cases recipient <;> simp
      · unfold GuildState.ChannelAddUpdate.patch
        obtain ⟨id, gid, name, topic, ty, pos, priv, recipient, overwrites⟩ := newChannel
        cases overwrites <;> cases priv <;> cases recipient <;> simp
      · intro id
        by_cases hid : id = newChannel.ID
        · subst hid
          simp [GoMap.insert_self, hm]
        · simp only []
          rw [GoMap.insert_other _ _ _ _ hid]
    · intro h
      cases h

/-- C8, on an instance: renaming the stored channel `general`, which holds three
messages, without supplying permission overwrites keeps its messages and its stored
overwrites and takes the new name. -/
theorem channel_merge_witness :
    ∃ entry g', (Example.cache [Example.entry "m3" "t95", Example.entry "m4" "t95",
        Example.entry "m5" "t100"] false).ChannelAddUpdate true Example.generalUpdate
        = .ok (entry, g') ∧
      g'.Channels "general" = some entry ∧
      entry.Messages = [Example.entry "m3" "t95", Example.entry "m4" "t95",
        Example.entry "m5" "t100"] ∧
      entry.Channel.PermissionOverwrites = Example.general.PermissionOverwrites ∧
      entry.Channel.Name = "lobby" := by
  obtain ⟨entry, g', h, h1, _, _, he, _⟩ :=
    channel_merge (Example.cache [Example.entry "m3" "t95", Example.entry "m4" "t95",
      Example.entry "m5" "t100"] false) true Example.generalUpdate (fun _ => rfl)
  obtain ⟨h2, h3, _, h4, _⟩ := he (Example.channelWith [Example.entry "m3" "t95",
    Example.entry "m4" "t95", Example.entry "m5" "t100"]) rfl
  exact ⟨entry, g', h, h1, h2, h3, h4.2.2.1⟩

/-! ## Voice states -/

theorem firstIdx_eq_none {α : Type} (p : α → Bool) (l : List α) :
    firstIdx p l = none ↔ ∀ x ∈ l, p x = false := by
  induction l with
  | nil => simp [firstIdx]
  | cons x xs ih =>
    by_cases hx : p x = true
    · simp [firstIdx, hx]
    · simp only [Bool.not_eq_true] at hx
      simp [firstIdx, hx, ih]

theorem splice_zero {α : Type} (x : α) (xs : List α) : splice (x :: xs) 0 = xs := by
  simp [splice]

theorem splice_succ {α : Type} (x : α) (xs : List α) (i : Nat) :
    splice (x :: xs) (i + 1) = x :: splice xs i := by
  simp [splice]

theorem splice_firstIdx_eq_filter {α : Type} (f : α → String) (u : String) (l : List α)
    (hnd : (l.map f).Nodup) :
    ∀ i, firstIdx (fun x => f x == u) l = some i →
      splice l i = l.filter (fun x => f x != u) := by
  induction l with
  | nil => intro i h; simp [firstIdx] at h
  | cons x xs ih =>
    intro i h
    simp only [List.map_cons, List.nodup_cons] at hnd
    by_cases hx : f x = u
    · have hxs : ∀ y ∈ xs, f y ≠ u := by
        intro y hy heq
        apply hnd.1
        rw [hx, ← heq]
        exact List.mem_map_of_mem _ hy
      have hf : xs.filter (fun y => f y != u) = xs := by
        rw [List.filter_eq_self]
        intro y hy
        simpa using hxs y hy
      simp only [firstIdx, hx, beq_self_eq_true, if_true, Option.some.injEq] at h
      subst h
      rw [splice_zero]
      simp [hx, hf]
    · have hx2 : (f x == u) = false := by simpa using hx
      simp only [firstIdx, hx2, Bool.false_eq_true, if_false, Option.map_eq_some'] at h
      obtain ⟨j, hj, rfl⟩ := h
      rw [splice_succ, ih hnd.2 j hj]
      simp [hx]

theorem firstIdx_overwriteFirst {α : Type} (p : α → Bool) (v : α) (hv : p v = true)
    (l : List α) :
    ∀ i, firstIdx p l = some i →
      firstIdx p (overwriteFirst p v l) = some i ∧
        splice (overwriteFirst p v l) i = splice l i := by
  induction l with
  | nil => intro i h; simp [firstIdx] at h
  | cons x xs ih =>
    intro i h
    by_cases hx : p x = true
    · simp only [firstIdx, hx, if_true, Option.some.injEq] at h
      subst h
      simp [overwriteFirst, hx, firstIdx, hv, splice_zero]
    · simp only [Bool.not_eq_true] at hx
      simp only [firstIdx, hx, Bool.false_eq_true, if_false, Option.map_eq_some'] at h
      obtain ⟨j, hj, rfl⟩ := h
      obtain ⟨h1, h2⟩ := ih j hj
      simp [overwriteFirst, hx, firstIdx, h1, splice_succ, h2]

theorem firstIdx_append_fresh {α : Type} (p : α → Bool) (v : α) (hv : p v = true)
    (l : List α) (hl : ∀ x ∈ l, p x = false) :
    firstIdx p (l ++ [v]) = some l.length ∧ splice (l ++ [v]) l.length = l := by
  induction l with
  | nil => simp [firstIdx, hv, splice]
  | cons x xs ih =>
    have hx : p x = false := hl x (List.mem_cons_self _ _)
    obtain ⟨h1, h2⟩ := ih (fun y hy => hl y (List.mem_cons_of_mem _ hy))
    simp [firstIdx, hx, h1, splice_succ, h2]

theorem withRLock_free {α : Type} (lock : Bool) (g : GuildState) (body : GuildState → α)
    (hmu : ∀ (s : GuildState) (m : RWMutex), body { s with mu := m } = body s)
    (hfree : lock = true → g.mu = RWMutex.free) :
    withRLock lock g body = .ok (body g) := by
  cases lock with
  | false => rfl
  | true =>
    have hg : g.mu = RWMutex.free := hfree rfl
    simp [withRLock, GuildState.RLock, GuildState.RUnlock, hg, RWMutex.free, bind, Except.bind,
      pure, Except.pure, hmu]

theorem VoiceState_lookup (g : GuildState) (lock : Bool) (userID : String)
    (hfree : lock = true → g.mu = RWMutex.free) :
    g.VoiceState lock userID =
      .ok ((Slice.toList g.Guild.VoiceStates).find? (fun v => v.UserID == userID)) := by
  unfold GuildState.VoiceState
  exact withRLock_free lock g _ (fun _ _ => rfl) hfree

theorem VoiceStateUpdate_lock (g : GuildState) (lock : Bool) (update : VoiceStateUpdate)
    (hfree : lock = true → g.mu = RWMutex.free) :
    g.VoiceStateUpdate lock update = g.VoiceStateUpdate false update := by
  unfold GuildState.VoiceStateUpdate
  rw [withLock_eq_body lock g _ hfree, withLock_false]
  intro s m
  simp only [GuildState.VoiceState, withRLock, bind, Except.bind, pure, Except.pure,
    Bool.false_eq_true, if_false]
  split
  · rfl
  · split <;> rfl

/-- The voice-state list after `VoiceStateUpdate`, entered with the lock held. -/
theorem VoiceStateUpdate_unlocked (g : GuildState) (update : VoiceStateUpdate) :
    g.VoiceStateUpdate false update =
      .ok { g with
        Guild := { g.Guild with
          VoiceStates :=
            match (if update.ChannelID = "" then
                firstIdx (fun state => state.UserID == update.UserID)
                  (Slice.toList g.Guild.VoiceStates)
              else none) with
            | some i => some (splice (Slice.toList g.Guild.VoiceStates) i)
            | none =>
              match (Slice.toList g.Guild.VoiceStates).find?
                  (fun v => v.UserID == update.UserID) with
              | some _ =>
                g.Guild.VoiceStates.map
                  (overwriteFirst (fun v => v.UserID == update.UserID) update.VoiceState)
              | none => Slice.append g.Guild.VoiceStates update.VoiceState } } := by
  unfold GuildState.VoiceStateUpdate
  rw [withLock_false]
  simp only [GuildState.VoiceState, withRLock, bind, Except.bind, pure, Except.pure,
    Bool.false_eq_true, if_false]
  split
  · rfl
  · split <;> rfl

theorem Slice.toList_some {α : Type} (l : List α) : Slice.toList (some l) = l := rfl

theorem Slice.toList_append {α : Type} (s : Slice α) (a : α) :
    Slice.toList (Slice.append s a) = Slice.toList s ++ [a] := rfl

theorem leave_after_join_list (U : String) (v : VoiceState) (hv : v.UserID = U)
    (s : Slice VoiceState) (hnd : ((Slice.toList s).map fun x => x.UserID).Nodup) :
    ∃ i,
      firstIdx (fun state => state.UserID == U)
        (Slice.toList
          (match (Slice.toList s).find? (fun x => x.UserID == U) with
            | some _ => s.map (overwriteFirst (fun x => x.UserID == U) v)
            | none => Slice.append s v)) = some i ∧
      splice
        (Slice.toList
          (match (Slice.toList s).find? (fun x => x.UserID == U) with
            | some _ => s.map (overwriteFirst (fun x => x.UserID == U) v)
            | none => Slice.append s v)) i
        = (Slice.toList s).filter (fun x => x.UserID != U) := by
  have hpv : (fun x : VoiceState => x.UserID == U) v = true := by simp [hv]
  cases hfind : (Slice.toList s).find? (fun x => x.UserID == U) with
  | none =>
    have hall : ∀ x ∈ Slice.toList s, (fun x : VoiceState => x.UserID == U) x = false := by
      intro x hx
      have := List.find?_eq_none.mp hfind x hx
      simpa using this
    obtain ⟨h1, h2⟩ := firstIdx_append_fresh _ v hpv (Slice.toList s) hall
    refine ⟨(Slice.toList s).length, ?_, ?_⟩
    · simp only [Slice.toList_append]
      exact h1
    · simp only [Slice.toList_append]
      rw [h2]
      symm
      rw [List.filter_eq_self]
      intro x hx
      have := hall x hx
      simpa using this
  | some w =>
    cases s with
    | none => simp [Slice.toList] at hfind
    | some l =>
      simp only [Slice.toList_some, Option.map_some'] at hfind hnd ⊢
      cases hidx : firstIdx (fun state : VoiceState => state.UserID == U) l with
      | none =>
        exfalso
        have hall := (firstIdx_eq_none _ l).mp hidx
        have hw := List.find?_some hfind
        have hmem := List.mem_of_find?_eq_some hfind
        have := hall w hmem
        simp_all
      | some i =>
        obtain ⟨h1, h2⟩ := firstIdx_overwriteFirst _ v hpv l i hidx
        refine ⟨i, h1, ?_⟩
        rw [h2]
        exact splice_firstIdx_eq_filter (fun x => x.UserID) U l hnd i hidx

/-- C9: join then leave.  On a voice-state list with at most one entry per user, an
update of user `U` with a non-empty channel reference followed by an update of `U`
with an empty channel reference both return; afterwards the lookup of `U` returns
nil, no entry of the list belongs to `U`, and the list consists of the original
entries of the other users, unchanged and in their original order. -/
theorem join_then_leave (g : GuildState) (lock : Bool) (join leave : VoiceStateUpdate)
    (U : String)
    (hnd : ((Slice.toList g.Guild.VoiceStates).map fun v => v.UserID).Nodup)
    (hj : join.UserID = U) (hjc : join.ChannelID ≠ "")
    (hl : leave.UserID = U) (hlc : leave.ChannelID = "")
    (hfree : lock = true → g.mu = RWMutex.free) :
    ∃ g1 g2, g.VoiceStateUpdate lock join = .ok g1 ∧ g1.VoiceStateUpdate lock leave = .ok g2 ∧
      g2.VoiceState lock U = .ok none ∧
      (∀ v ∈ Slice.toList g2.Guild.VoiceStates, v.UserID ≠ U) ∧
      Slice.toList g2.Guild.VoiceStates
        = (Slice.toList g.Guild.VoiceStates).filter (fun v => v.UserID != U) := by
  subst hj
  have hstep1 := VoiceStateUpdate_unlocked g join
  rw [if_neg hjc] at hstep1
  simp only [] at hstep1
  obtain ⟨i, hi, hsp⟩ := leave_after_join_list join.UserID join.VoiceState rfl
    g.Guild.VoiceStates hnd
  obtain ⟨g1, hg1, hvs1, hmu1⟩ : ∃ g1, g.VoiceStateUpdate false join = .ok g1 ∧
      g1.Guild.VoiceStates =
        (match (Slice.toList g.Guild.VoiceStates).find? (fun x => x.UserID == join.UserID) with
          | some _ =>
            g.Guild.VoiceStates.map
              (overwriteFirst (fun x => x.UserID == join.UserID) join.VoiceState)
          | none => Slice.append g.Guild.VoiceStates join.VoiceState) ∧
      g1.mu = g.mu := ⟨_, hstep1, rfl, rfl⟩
  rw [← hvs1] at hi hsp
  have hfree1 : lock = true → g1.mu = RWMutex.free := fun h => by rw [hmu1]; exact hfree h
  have hstep2 := VoiceStateUpdate_unlocked g1 leave
  rw [if_pos hlc, hl, hi] at hstep2
  simp only [] at hstep2
  obtain ⟨g2, hg2, hvs2, hmu2⟩ : ∃ g2, g1.VoiceStateUpdate false leave = .ok g2 ∧
      g2.Guild.VoiceStates = some (splice (Slice.toList g1.Guild.VoiceStates) i) ∧
      g2.mu = g1.mu := ⟨_, hstep2, rfl, rfl⟩
  have hfree2 : lock = true → g2.mu = RWMutex.free := fun h => by rw [hmu2]; exact hfree1 h
  have hlist : Slice.toList g2.Guild.VoiceStates
      = (Slice.toList g.Guild.VoiceStates).filter (fun v => v.UserID != join.UserID) := by
    rw [hvs2, Slice.toList_some, hsp]
  refine ⟨g1, g2, ?_, ?_, ?_, ?_, hlist⟩
  · rw [VoiceStateUpdate_lock g lock join hfree]
    exact hg1
  · rw [VoiceStateUpdate_lock g1 lock leave hfree1]
    exact hg2
  · rw [VoiceState_lookup g2 lock _ hfree2, hlist]
    congr 1
    rw [List.find?_eq_none]
    intro x hx
    simp only [List.mem_filter] at hx
    simpa using hx.2
  · intro v hvm
    rw [hlist] at hvm
    simp only [List.mem_filter] at hvm
    simpa using hvm.2

/-- C9, on an instance: with `u2` and `u3` in voice, `u2` moves to another channel
and then leaves; afterwards only the entry of `u3` remains. -/
theorem join_then_leave_witness :
    ∃ g1 g2, Example.inVoice.VoiceStateUpdate true { VoiceState := Example.voice "u2" "music" }
        = .ok g1 ∧
      g1.VoiceStateUpdate true { VoiceState := Example.voice "u2" "" } = .ok g2 ∧
      g2.VoiceState true "u2" = .ok none ∧
      Slice.toList g2.Guild.VoiceStates = [Example.voice "u3" "general"] := by
  obtain ⟨g1, g2, h1, h2, h3, _, h4⟩ := join_then_leave Example.inVoice true
    { VoiceState := Example.voice "u2" "music" } { VoiceState := Example.voice "u2" "" } "u2"
    (by decide) rfl (by decide) rfl rfl (fun _ => rfl)
  exact ⟨g1, g2, h1, h2, h3, h4⟩

/-! ## Removal by an ID that is not there -/

theorem ChannelRemove_missing (g : GuildState) (lock : Bool) (id : String)
    (h : g.Channels id = none) (hfree : lock = true → g.mu = RWMutex.free) :
    g.ChannelRemove lock id = .ok g := by
  unfold GuildState.ChannelRemove
  rw [withLock_eq_body lock g (fun _ _ => rfl) hfree]
  simp only [pure, Except.pure, GoMap.delete_absent _ _ h]

theorem MemberRemove_missing (g : GuildState) (lock : Bool) (id : String)
    (h : g.Members id = none) (hfree : lock = true → g.mu = RWMutex.free) :
    g.MemberRemove lock id = .ok g := by
  unfold GuildState.MemberRemove
  rw [withLock_eq_body lock g (fun _ _ => rfl) hfree]
  simp only [pure, Except.pure, GoMap.delete_absent _ _ h]

theorem RoleRemove_missing (g : GuildState) (lock : Bool) (id : String)
    (h : ∀ r ∈ Slice.toList g.Guild.Roles, r.ID ≠ id)
    (hfree : lock = true → g.mu = RWMutex.free) :
    g.RoleRemove lock id = .ok g := by
  have hidx : firstIdx (fun v : Role => v.ID == id) (Slice.toList g.Guild.Roles) = none := by
    rw [firstIdx_eq_none]
    intro r hr
    simpa using h r hr
  unfold GuildState.RoleRemove
  rw [withLock_eq_body lock g _ hfree]
  · simp only [hidx, pure, Except.pure]
  · intro s m
    simp only []
    split <;> rfl

theorem MessageRemove_unlocked_missing (g : GuildState) (channelID messageID : String)
    (h : ∀ channel, g.Channels channelID = some channel →
      ∀ m ∈ channel.Messages, m.Message.ID ≠ messageID) :
    g.MessageRemove false channelID messageID = .ok g := by
  rw [MessageRemove_unlocked]
  cases hc : g.Channels channelID with
  | none => rfl
  | some channel =>
    simp only [MessageRemove_loop_absent _ _ _ (h channel hc)]
    congr 1
    have hins : g.Channels.insert channelID channel = g.Channels := by
      funext x
      by_cases hx : x = channelID
      · subst hx
        rw [GoMap.insert_self, hc]
      · rw [GoMap.insert_other _ _ _ _ hx]
    cases g
    simp only [GuildState.mk.injEq, true_and, and_true]
    exact hins

/-- C10 (the code departs from the claim): `MessageRemove` of an unknown channel, or
of a message ID that the channel does not hold, does not return when it is called
with `lock = true`: it takes the write lock and then looks the channel up with the
same `lock` flag, which asks for the read lock of the mutex it holds.  Entered with
the lock held, both calls return the aggregate as it was. -/
theorem message_remove_of_missing_id_deadlocks_when_locking :
    (Example.cache [Example.entry "m3" "t95"] false).MessageRemove true "unknown" "m3"
      = .error .deadlock ∧
    (Example.cache [Example.entry "m3" "t95"] false).MessageRemove true "general" "m9"
      = .error .deadlock ∧
    Example.held
        ((Example.cache [Example.entry "m3" "t95"] false).MessageRemove false "unknown" "m3")
      = some [("m3", 95, false)] ∧
    Example.held
        ((Example.cache [Example.entry "m3" "t95"] false).MessageRemove false "general" "m9")
      = some [("m3", 95, false)] :=
  ⟨rfl, rfl, rfl, rfl⟩

/-! ## Roles -/

theorem find?_overwriteFirst {α : Type} (p : α → Bool) (v : α) (hv : p v = true)
    (l : List α) (w : α) (h : l.find? p = some w) :
    (overwriteFirst p v l).find? p = some v := by
  induction l with
  | nil => simp at h
  | cons x xs ih =>
    by_cases hx : p x = true
    · simp [overwriteFirst, hx, hv]
    · simp only [Bool.not_eq_true] at hx
      simp only [List.find?_cons, hx] at h
      simp [overwriteFirst, hx, ih h]

theorem find?_append_fresh {α : Type} (p : α → Bool) (v : α) (hv : p v = true)
    (l : List α) (h : l.find? p = none) : (l ++ [v]).find? p = some v := by
  simp [List.find?_append, h, hv]

theorem overwriteFirst_eq_set {α : Type} (p : α → Bool) (v : α) (l : List α) :
    ∀ i, firstIdx p l = some i → overwriteFirst p v l = l.set i v := by
  induction l with
  | nil => intro i h; simp [firstIdx] at h
  | cons x xs ih =>
    intro i h
    by_cases hx : p x = true
    · simp only [firstIdx, hx, if_true, Option.some.injEq] at h
      subst h
      simp [overwriteFirst, hx]
    · simp only [Bool.not_eq_true] at hx
      simp only [firstIdx, hx, Bool.false_eq_true, if_false, Option.map_eq_some'] at h
      obtain ⟨j, hj, rfl⟩ := h
      simp [overwriteFirst, hx, ih j hj]

theorem find?_eq_none_iff_firstIdx {α : Type} (p : α → Bool) (l : List α) :
    l.find? p = none ↔ firstIdx p l = none := by
  rw [firstIdx_eq_none, List.find?_eq_none]
  simp

theorem firstIdx_find? {α : Type} (p : α → Bool) (l : List α) (w : α)
    (h : l.find? p = some w) : ∃ i, firstIdx p l = some i ∧ l[i]? = some w := by
  induction l with
  | nil => simp at h
  | cons x xs ih =>
    by_cases hx : p x = true
    · simp only [List.find?_cons, hx, Option.some.injEq] at h
      subst h
      exact ⟨0, by simp [firstIdx, hx], by simp⟩
    · simp only [Bool.not_eq_true] at hx
      simp only [List.find?_cons, hx] at h
      obtain ⟨i, hi, hw⟩ := ih h
      exact ⟨i + 1, by simp [firstIdx, hx, hi], by simpa using hw⟩

theorem Role_lookup (g : GuildState) (lock : Bool) (id : String)
    (hfree : lock = true → g.mu = RWMutex.free) :
    g.Role lock id = .ok ((Slice.toList g.Guild.Roles).find? (fun role => role.ID == id)) := by
  unfold GuildState.Role
  exact withRLock_free lock g _ (fun _ _ => rfl) hfree

theorem RoleAddUpdate_lock (g : GuildState) (lock : Bool) (newRole : Role)
    (hfree : lock = true → g.mu = RWMutex.free) :
    g.RoleAddUpdate lock newRole = g.RoleAddUpdate false newRole := by
  unfold GuildState.RoleAddUpdate
  rw [withLock_eq_body lock g _ hfree, withLock_false]
  intro s m
  simp only [GuildState.Role, withRLock, bind, Except.bind, pure, Except.pure,
    Bool.false_eq_true, if_false]
  split <;> rfl

/-- The role list after `RoleAddUpdate`, entered with the lock held. -/
theorem RoleAddUpdate_unlocked (g : GuildState) (newRole : Role) :
    g.RoleAddUpdate false newRole =
      .ok { g with
        Guild := { g.Guild with
          Roles :=
            match (Slice.toList g.Guild.Roles).find? (fun role => role.ID == newRole.ID) with
            | some _ =>
              g.Guild.Roles.map (overwriteFirst (fun role => role.ID == newRole.ID) newRole)
            | none => Slice.append g.Guild.Roles newRole } } := by
  unfold GuildState.RoleAddUpdate
  rw [withLock_false]
  simp only [GuildState.Role, withRLock, bind, Except.bind, pure, Except.pure,
    Bool.false_eq_true, if_false]
  split <;> rfl

theorem RoleRemove_lock (g : GuildState) (lock : Bool) (id : String)
    (hfree : lock = true → g.mu = RWMutex.free) :
    g.RoleRemove lock id = g.RoleRemove false id := by
  unfold GuildState.RoleRemove
  rw [withLock_eq_body lock g _ hfree, withLock_false]
  intro s m
  simp only []
  split <;> rfl

/-- C11: role add-or-update then lookup.  `RoleAddUpdate` returns, and afterwards the
lookup of the incoming role's ID returns the incoming role.  If a role with that ID
was in the list, the first such element (at index `i`) is overwritten by the
incoming role, the length and all other elements are unchanged; if none was, the
new list is the old list with the incoming role appended at the end.  Members,
channels and the mutex are untouched. -/
theorem role_add_update_then_lookup (g : GuildState) (lock : Bool) (newRole : Role)
    (hfree : lock = true → g.mu = RWMutex.free) :
    ∃ g', g.RoleAddUpdate lock newRole = .ok g' ∧
      g'.Role lock newRole.ID = .ok (some newRole) ∧
      (∀ i, firstIdx (fun role => role.ID == newRole.ID) (Slice.toList g.Guild.Roles) = some i →
        Slice.toList g'.Guild.Roles = (Slice.toList g.Guild.Roles).set i newRole ∧
          (Slice.toList g'.Guild.Roles).length = (Slice.toList g.Guild.Roles).length) ∧
      (firstIdx (fun role => role.ID == newRole.ID) (Slice.toList g.Guild.Roles) = none →
        Slice.toList g'.Guild.Roles = Slice.toList g.Guild.Roles ++ [newRole]) ∧
      (g'.mu = g.mu ∧ g'.Members = g.Members ∧ g'.Channels = g.Channels) := by
  have hpv : (fun role : Role => role.ID == newRole.ID) newRole = true := by simp
  have hstep := RoleAddUpdate_unlocked g newRole
  obtain ⟨g', hg', hroles, hmu, hmembers, hchannels⟩ :
      ∃ g', g.RoleAddUpdate false newRole = .ok g' ∧
        g'.Guild.Roles =
          (match (Slice.toList g.Guild.Roles).find? (fun role => role.ID == newRole.ID) with
            | some _ =>
              g.Guild.Roles.map (overwriteFirst (fun role => role.ID == newRole.ID) newRole)
            | none => Slice.append g.Guild.Roles newRole) ∧
        g'.mu = g.mu ∧ g'.Members = g.Members ∧ g'.Channels = g.Channels :=
    ⟨_, hstep, rfl, rfl, rfl, rfl⟩
  have hfree' : lock = true → g'.mu = RWMutex.free := fun h => by rw [hmu]; exact hfree h
  refine ⟨g', by rw [RoleAddUpdate_lock g lock newRole hfree]; exact hg', ?_, ?_, ?_,
    ⟨hmu, hmembers, hchannels⟩⟩
  · rw [Role_lookup g' lock _ hfree', hroles]
    cases hfind : (Slice.toList g.Guild.Roles).find? (fun role => role.ID == newRole.ID) with
    | none =>
      simp only [Slice.toList_append]
      rw [find?_append_fresh _ newRole hpv _ hfind]
    | some w =>
      cases hr : g.Guild.Roles with
      | none => rw [hr] at hfind; simp [Slice.toList] at hfind
      | some l =>
        rw [hr] at hfind
        simp only [Slice.toList_some, Option.map_some'] at hfind ⊢
        rw [find?_overwriteFirst _ newRole hpv l w hfind]
  · intro i hi
    have hne : (Slice.toList g.Guild.Roles).find? (fun role => role.ID == newRole.ID) ≠ none := by
      intro hnone
      rw [find?_eq_none_iff_firstIdx, hi] at hnone
      cases hnone
    rw [hroles]
    cases hfind : (Slice.toList g.Guild.Roles).find? (fun role => role.ID == newRole.ID) with
    | none => exact absurd hfind hne
    | some w =>
      cases hr : g.Guild.Roles with
      | none => rw [hr] at hfind; simp [Slice.toList] at hfind
      | some l =>
        rw [hr] at hi
        simp only [Slice.toList_some, Option.map_some'] at hi ⊢
        rw [overwriteFirst_eq_set _ newRole l i hi]
        exact ⟨rfl, List.length_set _ _ _⟩
  · intro hnone
    rw [← find?_eq_none_iff_firstIdx] at hnone
    rw [hroles, hnone]
    rfl

/-- C11, on an instance: updating role `r1` in the list `[r1, r2]` overwrites the
first element and keeps `r2`; the lookup of `r1` returns the new version. -/
theorem role_add_update_then_lookup_witness :
    ∃ g', Example.withRoles.RoleAddUpdate true Example.role1New = .ok g' ∧
      g'.Role true "r1" = .ok (some Example.role1New) ∧
      Slice.toList g'.Guild.Roles = [Example.role1New, Example.role "r2"] := by
  obtain ⟨g', h, h1, h2, _, _⟩ :=
    role_add_update_then_lookup Example.withRoles true Example.role1New (fun _ => rfl)
  exact ⟨g', h, h1, (h2 0 (by rfl)).1⟩

/-- C12: role removal.  On a role list with pairwise distinct IDs that contains a
role with the given ID, `RoleRemove` returns; the new list is the old one with that
element (at index `i`) spliced out, which is the old list without the roles of that
ID, in the original order and one shorter; afterwards the lookup of the ID returns
nil. -/
theorem role_removal (g : GuildState) (lock : Bool) (id : String)
    (hnd : ((Slice.toList g.Guild.Roles).map fun r => r.ID).Nodup)
    (hmem : ∃ r ∈ Slice.toList g.Guild.Roles, r.ID = id)
    (hfree : lock = true → g.mu = RWMutex.free) :
    ∃ g' i, g.RoleRemove lock id = .ok g' ∧
      firstIdx (fun v => v.ID == id) (Slice.toList g.Guild.Roles) = some i ∧
      Slice.toList g'.Guild.Roles = splice (Slice.toList g.Guild.Roles) i ∧
      Slice.toList g'.Guild.Roles = (Slice.toList g.Guild.Roles).filter (fun r => r.ID != id) ∧
      (Slice.toList g'.Guild.Roles).length + 1 = (Slice.toList g.Guild.Roles).length ∧
      g'.Role lock id = .ok none ∧
      (g'.mu = g.mu ∧ g'.Members = g.Members ∧ g'.Channels = g.Channels) := by
  cases hidx : firstIdx (fun v : Role => v.ID == id) (Slice.toList g.Guild.Roles) with
  | none =>
    exfalso
    obtain ⟨r, hr, hid⟩ := hmem
    have := (firstIdx_eq_none _ _).mp hidx r hr
    simp [hid] at this
  | some i =>
    have hfilter := splice_firstIdx_eq_filter (fun r : Role => r.ID) id _ hnd i hidx
    have hstep : g.RoleRemove false id =
        .ok { g with
          Guild := { g.Guild with Roles := some (splice (Slice.toList g.Guild.Roles) i) } } := by
      unfold GuildState.RoleRemove
      rw [withLock_false]
      simp only [hidx, pure, Except.pure]
    have hlt : i < (Slice.toList g.Guild.Roles).length := by
      clear hfilter hstep hnd hmem
      generalize Slice.toList g.Guild.Roles = l at hidx
      induction l generalizing i with
      | nil => simp [firstIdx] at hidx
      | cons x xs ih =>
        by_cases hx : (x.ID == id) = true
        · simp only [firstIdx, hx, if_true, Option.some.injEq] at hidx
          subst hidx
          simp
        · simp only [Bool.not_eq_true] at hx
          simp only [firstIdx, hx, Bool.false_eq_true, if_false, Option.map_eq_some'] at hidx
          obtain ⟨j, hj, rfl⟩ := hidx
          have := ih j hj
          simp only [List.length_cons]
          omega
    obtain ⟨g', hg', hroles, hmu, hmembers, hchannels⟩ :
        ∃ g', g.RoleRemove false id = .ok g' ∧
          g'.Guild.Roles = some (splice (Slice.toList g.Guild.Roles) i) ∧
          g'.mu = g.mu ∧ g'.Members = g.Members ∧ g'.Channels = g.Channels :=
      ⟨_, hstep, rfl, rfl, rfl, rfl⟩
    have hfree' : lock = true → g'.mu = RWMutex.free := fun h => by rw [hmu]; exact hfree h
    have hlist : Slice.toList g'.Guild.Roles = splice (Slice.toList g.Guild.Roles) i := by
      rw [hroles, Slice.toList_some]
    refine ⟨g', i, by rw [RoleRemove_lock g lock id hfree]; exact hg', rfl, hlist,
      hlist.trans hfilter, ?_, ?_, ⟨hmu, hmembers, hchannels⟩⟩
    · rw [hlist]
      simp only [splice, List.length_append, List.length_take, List.length_drop]
      omega
    · rw [Role_lookup g' lock _ hfree', hlist, hfilter]
      congr 1
      rw [List.find?_eq_none]
      intro x hx
      simp only [List.mem_filter] at hx
      simpa using hx.2

/-- C12, on an instance: removing `r1` from the list `[r1, r2]` leaves `[r2]`, and
the lookup of `r1` returns nil. -/
theorem role_removal_witness :
    ∃ g', Example.withRoles.RoleRemove true "r1" = .ok g' ∧
      Slice.toList g'.Guild.Roles = [Example.role "r2"] ∧ g'.Role true "r1" = .ok none := by
  obtain ⟨g', i, h, _, _, h2, _, h3, _⟩ := role_removal Example.withRoles true "r1"
    (by decide) ⟨Example.role "r1", by decide, rfl⟩ (fun _ => rfl)
  exact ⟨g', h, h2, h3⟩

/-! ## Presence merge -/

theorem PresenceAddUpdate_lock (g : GuildState) (lock : Bool) (newPresence : Presence)
    (hfree : lock = true → g.mu = RWMutex.free) :
    g.PresenceAddUpdate lock newPresence = g.PresenceAddUpdate false newPresence := by
  unfold GuildState.PresenceAddUpdate
  rw [withLock_eq_body lock g _ hfree, withLock_false]
  intro s m
  simp only []
  cases s.Members newPresence.User.ID with
  | none => rfl
  | some existing =>
    obtain ⟨member, presence⟩ := existing
    cases presence <;> rfl

/-- C13: presence merge.  `PresenceAddUpdate` returns; in the member collection it
changes only the entry of the incoming user ID, and it leaves the channel collection
and the mutex as they were.  (1) On an entry with a presence half, the membership half is
kept and the presence half is patched: `Game` is the incoming value, also when that
is nil, `Status` is the incoming value if that is non-empty and the stored value
otherwise, and `User` is unchanged.  (2) Without entry, a new entry holding the
incoming presence and no membership half is created.  (3) On an entry without
presence half, the incoming presence is attached as it is and the membership half
is kept.  In every case the membership half of the entry is the one it had. -/
theorem presence_merge (g : GuildState) (lock : Bool) (newPresence : Presence)
    (hfree : lock = true → g.mu = RWMutex.free) :
    ∃ g', g.PresenceAddUpdate lock newPresence = .ok g' ∧
      (∀ id, id ≠ newPresence.User.ID → g'.Members id = g.Members id) ∧
      (g'.mu = g.mu ∧ g'.Channels = g.Channels) ∧
      (∀ existing p, g.Members newPresence.User.ID = some existing →
        existing.Presence = some p →
        ∃ p', g'.Members newPresence.User.ID
            = some { Member := existing.Member, Presence := some p' } ∧
          p'.Game = newPresence.Game ∧
          p'.Status = (if newPresence.Status = "" then p.Status else newPresence.Status) ∧
          p'.User = p.User) ∧
      (g.Members newPresence.User.ID = none →
        g'.Members newPresence.User.ID
          = some { Member := none, Presence := some newPresence }) ∧
      (∀ existing, g.Members newPresence.User.ID = some existing → existing.Presence = none →
        g'.Members newPresence.User.ID
          = some { Member := existing.Member, Presence := some newPresence }) ∧
      (∀ existing e', g.Members newPresence.User.ID = some existing →
        g'.Members newPresence.User.ID = some e' → e'.Member = existing.Member) := by
  rw [PresenceAddUpdate_lock g lock newPresence hfree]
  unfold GuildState.PresenceAddUpdate
  rw [withLock_false]
  cases hm : g.Members newPresence.User.ID with
  | none =>
    refine ⟨_, rfl, ?_, ⟨rfl, rfl⟩, ?_, ?_, ?_, ?_⟩
    · intro id hid
      exact GoMap.insert_other _ _ _ _ hid
    · intro existing p h
      cases h
    · intro _
      exact GoMap.insert_self _ _ _
    · intro existing h
      cases h
    · intro existing e' h
      cases h
  | some existing =>
    cases he : existing.Presence with
    | none =>
      simp only [he]
      refine ⟨_, rfl, ?_, ⟨rfl, rfl⟩, ?_, ?_, ?_, ?_⟩
      · intro id hid
        exact GoMap.insert_other _ _ _ _ hid
      · intro existing2 p h h2
        cases h
        rw [he] at h2
        cases h2
      · intro h
        cases h
      · intro existing2 h _
        cases h
        exact GoMap.insert_self _ _ _
      · intro existing2 e' h h2
        cases h
        simp only [GoMap.insert_self, Option.some.injEq] at h2
        rw [← h2]
    | some p =>
      simp only [he]
      refine ⟨_, rfl, ?_, ⟨rfl, rfl⟩, ?_, ?_, ?_, ?_⟩
      · intro id hid
        exact GoMap.insert_other _ _ _ _ hid
      · intro existing2 p2 h h2
        cases h
        rw [he] at h2
        cases h2
        refine ⟨GuildState.PresenceAddUpdate.patch p newPresence, GoMap.insert_self _ _ _, ?_⟩
        unfold GuildState.PresenceAddUpdate.patch
        by_cases hs : newPresence.Status = "" <;> simp [hs]
      · intro h
        cases h
      · intro existing2 h h2
        cases h
        rw [he] at h2
        cases h2
      · intro existing2 e' h h2
        cases h
        simp only [GoMap.insert_self, Option.some.injEq] at h2
        rw [← h2]

/-- C13, on an instance: updating the stored presence of `u1` (online, playing) with
an empty status and a nil game clears the game, keeps the status and keeps the
membership half. -/
theorem presence_merge_witness :
    ∃ g' p', Example.withPresence.PresenceAddUpdate true Example.presence1Update = .ok g' ∧
      g'.Members "u1" = some { Member := some Example.member1, Presence := some p' } ∧
      p'.Game = none ∧ p'.Status = "online" ∧ p'.User = Example.presence1.User := by
  obtain ⟨g', h, _, _, hp, _, _⟩ :=
    presence_merge Example.withPresence true Example.presence1Update (fun _ => rfl)
  obtain ⟨p', h1, h2, h3, h4⟩ :=
    hp { Member := some Example.member1, Presence := some Example.presence1 }
      Example.presence1 rfl rfl
  exact ⟨g', p', h, h1, h2, h3, h4⟩

/-! ## Message update path -/

theorem MessageAddUpdate_patch_fields (e msg : Message) :
    (GuildState.MessageAddUpdate.patch e msg).ID = e.ID ∧
    (GuildState.MessageAddUpdate.patch e msg).ChannelID = e.ChannelID ∧
    (GuildState.MessageAddUpdate.patch e msg).Content
      = (if msg.Content = "" then e.Content else msg.Content) ∧
    (GuildState.MessageAddUpdate.patch e msg).EditedTimestamp
      = (if msg.EditedTimestamp = "" then e.EditedTimestamp else msg.EditedTimestamp) ∧
    (GuildState.MessageAddUpdate.patch e msg).Timestamp
      = (if msg.Timestamp = "" then e.Timestamp else msg.Timestamp) ∧
    (GuildState.MessageAddUpdate.patch e msg).Mentions
      = (if msg.Mentions = none then e.Mentions else msg.Mentions) ∧
    (GuildState.MessageAddUpdate.patch e msg).Embeds
      = (if msg.Embeds = none then e.Embeds else msg.Embeds) ∧
    (GuildState.MessageAddUpdate.patch e msg).Attachments
      = (if msg.Attachments = none then e.Attachments else msg.Attachments) ∧
    (GuildState.MessageAddUpdate.patch e msg).Author
      = (if msg.Author = none then e.Author else msg.Author) := by
  unfold GuildState.MessageAddUpdate.patch
  obtain ⟨id, cid, content, ts, ets, author, mentions, embeds, attachments⟩ := msg
  by_cases h1 : content = "" <;> by_cases h2 : ts = "" <;> by_cases h3 : ets = "" <;>
    cases author <;> cases mentions <;> cases embeds <;> cases attachments <;>
    simp [h1, h2, h3]

/-- C14: message update path.  When the channel of the incoming message holds a
message with the incoming ID and the age check is disabled, `MessageAddUpdate`
returns; the new sequence is the old one with the first entry of that ID (at index
`i`) replaced, so its length, its order and every other entry are unchanged; in the
replaced entry each of `Content`, `EditedTimestamp`, `Timestamp` is the incoming
value if that is non-empty and the stored value otherwise, each of `Mentions`,
`Embeds`, `Attachments`, `Author` is the incoming value if that is non-nil and the
stored value otherwise, the message ID, the channel ID and the `Deleted` flag are
unchanged, and the parsed timestamps are those of the patched message. -/
theorem message_update_path (g : GuildState) (parse : String → Time) (now : Time)
    (lock : Bool) (msg : Message) (ch : ChannelState) (e : MessageState)
    (hage : g.maxMessageDuration = 0) (hc : g.Channels msg.ChannelID = some ch)
    (he : ch.Message msg.ID = some e) (hfree : lock = true → g.mu = RWMutex.free) :
    ∃ g' ch' i e', g.MessageAddUpdate parse now lock msg = .ok g' ∧
      g'.Channels msg.ChannelID = some ch' ∧ ch'.Channel = ch.Channel ∧
      firstIdx (fun m => m.Message.ID == msg.ID) ch.Messages = some i ∧
      ch.Messages[i]? = some e ∧
      ch'.Messages = ch.Messages.set i e' ∧
      ch'.Messages.length = ch.Messages.length ∧
      (∀ j, j ≠ i → ch'.Messages[j]? = ch.Messages[j]?) ∧
      ch'.Messages[i]? = some e' ∧
      e'.Deleted = e.Deleted ∧
      e'.Message = GuildState.MessageAddUpdate.patch e.Message msg ∧
      e'.ParsedCreated = parse e'.Message.Timestamp ∧
      e'.ParsedEdited = parse e'.Message.EditedTimestamp ∧
      (e'.Message.ID = e.Message.ID ∧ e'.Message.ChannelID = e.Message.ChannelID ∧
        e'.Message.Content = (if msg.Content = "" then e.Message.Content else msg.Content) ∧
        e'.Message.EditedTimestamp =
          (if msg.EditedTimestamp = "" then e.Message.EditedTimestamp
            else msg.EditedTimestamp) ∧
        e'.Message.Timestamp =
          (if msg.Timestamp = "" then e.Message.Timestamp else msg.Timestamp) ∧
        e'.Message.Mentions = (if msg.Mentions = none then e.Message.Mentions else msg.Mentions) ∧
        e'.Message.Embeds = (if msg.Embeds = none then e.Message.Embeds else msg.Embeds) ∧
        e'.Message.Attachments =
          (if msg.Attachments = none then e.Message.Attachments else msg.Attachments) ∧
        e'.Message.Author = (if msg.Author = none then e.Message.Author else msg.Author)) ∧
      (∀ c, c ≠ msg.ChannelID → g'.Channels c = g.Channels c) := by
  obtain ⟨i, hi, hie⟩ := firstIdx_find? _ ch.Messages e he
  have hilt : i < ch.Messages.length := by
    rcases Nat.lt_or_ge i ch.Messages.length with h | h
    · exact h
    · rw [List.getElem?_eq_none h] at hie
      cases hie
  have hstep := MessageAddUpdate_known g parse now msg ch _ hc
    (addOrPatch_update parse g.maxMessages ch msg e he)
  rw [if_pos hage, overwriteFirst_eq_set _ _ _ i hi] at hstep
  rw [MessageAddUpdate_lock g parse now lock msg hfree]
  refine ⟨_, _, i, _, hstep, GoMap.insert_self _ _ _, rfl, hi, hie, rfl, ?_, ?_, ?_, rfl, rfl,
    rfl, rfl, ?_, ?_⟩
  · simp only [List.length_set]
  · intro j hj
    simp only []
    rw [List.getElem?_set_ne (fun h => hj h.symm)]
  · simp only []
    rw [List.getElem?_set_self hilt]
  · exact MessageAddUpdate_patch_fields e.Message msg
  · intro c hcne
    exact GoMap.insert_other _ _ _ _ hcne

/-- C14, on an instance: editing `m4` in `[m3, m4, m5]` with new content, a new
edited timestamp and an empty non-nil mention list replaces only the entry at
index 1, which keeps its creation timestamp, author and tombstone flag. -/
theorem message_update_path_witness :
    ∃ g' ch' e', (Example.cache [Example.entry "m3" "t95", Example.entry "m4" "t95",
        Example.entry "m5" "t100"] false).MessageAddUpdate Example.parseTime 100 true
        Example.edit4 = .ok g' ∧
      g'.Channels "general" = some ch' ∧
      ch'.Messages = [Example.entry "m3" "t95", e', Example.entry "m5" "t100"] ∧
      e'.Message.Content = "edited" ∧ e'.Message.EditedTimestamp = "t100" ∧
      e'.Message.Timestamp = "t95" ∧ e'.Message.Mentions = some [] ∧
      e'.Message.Author = none ∧ e'.Deleted = false := by
  obtain ⟨g', ch', i, e', h, h1, _, hi, _, h2, _, _, _, h3, _, _, _, h4, _⟩ :=
    message_update_path (Example.cache [Example.entry "m3" "t95", Example.entry "m4" "t95",
      Example.entry "m5" "t100"] false) Example.parseTime 100 true Example.edit4
      (Example.channelWith [Example.entry "m3" "t95", Example.entry "m4" "t95",
        Example.entry "m5" "t100"]) (Example.entry "m4" "t95") rfl rfl rfl (fun _ => rfl)
  have hi1 : i = 1 := by
    have : firstIdx (fun m : MessageState => m.Message.ID == Example.edit4.ID)
        (Example.channelWith [Example.entry "m3" "t95", Example.entry "m4" "t95",
          Example.entry "m5" "t100"]).Messages = some 1 := by rfl
    rw [this] at hi
    exact (Option.some.inj hi).symm
  subst hi1
  obtain ⟨_, _, h5, h6, h7, h8, _, _, h9⟩ := h4
  exact ⟨g', ch', e', h, h1, h2, h5, h6, h7, h8, h9, h3⟩

/-! ## Age check -/

/-- What the age check leaves: the sequence itself, or the sequence cut at an entry
whose parsed creation time is set and older than the maximal age. -/
theorem checkAge_cut (now : Time) (d : Duration) (messages : List MessageState) (n : Nat) :
    GuildState.MessageAddUpdate.checkAge now d messages n = messages ∨
      ∃ k m, k < n ∧ messages[k]? = some m ∧ Time.IsZero m.ParsedCreated = false ∧
        Time.Sub now m.ParsedCreated > d ∧
        GuildState.MessageAddUpdate.checkAge now d messages n = messages.drop k := by
  induction n with
  | zero => exact Or.inl rfl
  | succ i ih =>
    unfold GuildState.MessageAddUpdate.checkAge
    cases hm : messages[i]? with
    | none => exact Or.inl rfl
    | some m =>
      simp only []
      by_cases hz : Time.IsZero m.ParsedCreated = true
      · rw [if_pos hz]
        rcases ih with h | ⟨k, m2, hk, h1, h2, h3, h4⟩
        · exact Or.inl h
        · exact Or.inr ⟨k, m2, by omega, h1, h2, h3, h4⟩
      · rw [if_neg hz]
        by_cases hold : Time.Sub now m.ParsedCreated > d
        · rw [if_pos hold]
          exact Or.inr ⟨i, m, by omega, hm, by simpa using hz, hold, rfl⟩
        · rw [if_neg hold]
          rcases ih with h | ⟨k, m2, hk, h1, h2, h3, h4⟩
          · exact Or.inl h
          · exact Or.inr ⟨k, m2, by omega, h1, h2, h3, h4⟩

/-- C15 (as stated it fails): in the unknown-age scenario the channel holds
`[z, m1]` with `z` of unknown age (parsed creation time zero); the add-or-update
step of the call adding `m2` at time 95 leaves `[z, m1, m2]`, and the age check of
that same call, which finds `m1` expired (95 - 10 > 20), cuts the sequence at `m1`
and so removes `z`. -/
theorem age_check_drops_entry_of_unknown_age :
    Example.held Example.unknownAgeBefore = some [("z", 0, false), ("m1", 10, false)] ∧
    Example.unknownAgeAdded = .ok [("z", 0, false), ("m1", 10, false), ("m2", 95, false)] ∧
    Example.held Example.unknownAgeAfter = some [("m1", 10, false), ("m2", 95, false)] ∧
    Time.IsZero 0 = true :=
  ⟨rfl, rfl, rfl, rfl⟩

/-- C15 (amended): for every `maxMessageDuration` (so for every `D > 0`) and every
current time, a message whose parsed creation time is zero that is in the sequence
after the add-or-update step of `MessageAddUpdate` is still in the sequence after
the age check of that same call, provided that no entry after it in the sequence is
expired.  If the sequence left by the add-or-update step is `pre ++ m :: post` where
the parsed creation time of `m` is zero and no entry of `post` is expired (each has
a zero parsed creation time or an age of at most `maxMessageDuration`), then the
call returns and the sequence after the age check is `(pre ++ m :: post).drop k` for
some `k ≤ pre.length`; so `m` and all of `post` are still in it. -/
theorem unknown_age_kept_unless_newer_entry_expired (g : GuildState) (parse : String → Time)
    (now : Time) (lock : Bool) (msg : Message) (ch : ChannelState)
    (pre post : List MessageState) (m : MessageState)
    (hc : g.Channels msg.ChannelID = some ch)
    (ha : GuildState.MessageAddUpdate.addOrPatch parse g.maxMessages ch msg
      = .ok (pre ++ m :: post))
    (hz : Time.IsZero m.ParsedCreated = true)
    (hpost : ∀ x ∈ post, Time.IsZero x.ParsedCreated = true ∨
      ¬ Time.Sub now x.ParsedCreated > g.maxMessageDuration)
    (hfree : lock = true → g.mu = RWMutex.free) :
    ∃ g' ch' k, g.MessageAddUpdate parse now lock msg = .ok g' ∧
      g'.Channels msg.ChannelID = some ch' ∧ k ≤ pre.length ∧
      ch'.Messages = (pre ++ m :: post).drop k ∧ m ∈ ch'.Messages ∧
      (∀ x ∈ post, x ∈ ch'.Messages) := by
  have hstep := MessageAddUpdate_known g parse now msg ch _ hc ha
  rw [MessageAddUpdate_lock g parse now lock msg hfree]
  have hkey : ∃ k, k ≤ pre.length ∧
      (if g.maxMessageDuration = 0 then pre ++ m :: post
        else GuildState.MessageAddUpdate.checkAge now g.maxMessageDuration (pre ++ m :: post)
          (pre ++ m :: post).length) = (pre ++ m :: post).drop k := by
    by_cases hd : g.maxMessageDuration = 0
    · exact ⟨0, Nat.zero_le _, by rw [if_pos hd, List.drop_zero]⟩
    · rw [if_neg hd]
      rcases checkAge_cut now g.maxMessageDuration (pre ++ m :: post)
          (pre ++ m :: post).length with h | ⟨k, x, _, hx, hxz, hxold, hcut⟩
      · exact ⟨0, Nat.zero_le _, by rw [h, List.drop_zero]⟩
      · refine ⟨k, ?_, hcut⟩
        by_contra hgt
        have hge : pre.length ≤ k := by omega
        rw [List.getElem?_append_right hge] at hx
        rcases Nat.eq_zero_or_pos (k - pre.length) with h0 | hpos
        · rw [h0] at hx
          simp only [List.getElem?_cons_zero, Option.some.injEq] at hx
          subst hx
          rw [hz] at hxz
          cases hxz
        · obtain ⟨j, hj⟩ : ∃ j, k - pre.length = j + 1 := ⟨k - pre.length - 1, by omega⟩
          rw [hj, List.getElem?_cons_succ] at hx
          have hmem : x ∈ post := List.getElem?_mem hx
          rcases hpost x hmem with h | h
          · rw [h] at hxz
            cases hxz
          · exact h hxold
  obtain ⟨k, hk, hcut⟩ := hkey
  have hsuffix : m :: post <:+ (pre ++ m :: post).drop k := by
    rw [List.drop_append_of_le_length hk]
    exact List.suffix_append _ _
  refine ⟨_, _, k, hstep, GoMap.insert_self _ _ _, hk, hcut, ?_, ?_⟩
  · show m ∈ (if g.maxMessageDuration = 0 then _ else _)
    rw [hcut]
    exact hsuffix.subset (List.mem_cons_self _ _)
  · intro x hx
    show x ∈ (if g.maxMessageDuration = 0 then _ else _)
    rw [hcut]
    exact hsuffix.subset (List.mem_cons_of_mem _ hx)

/-- C15 (amended), on an instance: with `maxMessageDuration = 20`, the channel holds
`[z, m1]` with `z` of unknown age and `m1` created at 95; adding `m2` at time 100
keeps `z`, since neither `m1` nor `m2` is expired. -/
theorem unknown_age_kept_unless_newer_entry_expired_witness :
    ∃ g' ch', (Example.aging [Example.entry "z" "bad", Example.entry "m1" "t95"]).MessageAddUpdate
        Example.parseTime 100 true (Example.message "m2" "t100") = .ok g' ∧
      g'.Channels "general" = some ch' ∧ Example.entry "z" "bad" ∈ ch'.Messages := by
  obtain ⟨g', ch', k, h, h1, _, _, h2, _⟩ := unknown_age_kept_unless_newer_entry_expired
    (Example.aging [Example.entry "z" "bad", Example.entry "m1" "t95"]) Example.parseTime 100
    true (Example.message "m2" "t100")
    (Example.channelWith [Example.entry "z" "bad", Example.entry "m1" "t95"])
    [] [Example.entry "m1" "t95", Example.entry "m2" "t100"] (Example.entry "z" "bad")
    rfl rfl rfl (by decide) (fun _ => rfl)
  exact ⟨g', ch', h, h1, h2⟩

/-! ## Construction -/

/-- The state and the entry returned by `ChannelAddUpdate`, entered with the lock
held. -/
theorem ChannelAddUpdate_unlocked (g : GuildState) (newChannel : Channel) :
    g.ChannelAddUpdate false newChannel =
      .ok (match g.Channels newChannel.ID with
          | some existing =>
            { existing with
              Channel := GuildState.ChannelAddUpdate.patch existing.Channel newChannel }
          | none => { Channel := newChannel, Messages := [] },
        { g with
          Channels := g.Channels.insert newChannel.ID
            (match g.Channels newChannel.ID with
              | some existing =>
                { existing with
                  Channel := GuildState.ChannelAddUpdate.patch existing.Channel newChannel }
              | none => { Channel := newChannel, Messages := [] }) }) := by
  unfold GuildState.ChannelAddUpdate
  simp only [withLockRet, Bool.false_eq_true, if_false]
  cases g.Channels newChannel.ID <;> rfl

/-- The state returned by `ChannelAddUpdate`, entered with the lock held. -/
theorem ChannelAddUpdate_unlocked_state (g : GuildState) (newChannel : Channel) :
    (g.ChannelAddUpdate false newChannel).map Prod.snd =
      .ok { g with
        Channels := g.Channels.insert newChannel.ID
          (match g.Channels newChannel.ID with
            | some existing =>
              { existing with
                Channel := GuildState.ChannelAddUpdate.patch existing.Channel newChannel }
            | none => { Channel := newChannel, Messages := [] }) } := by
  rw [ChannelAddUpdate_unlocked]
  rfl

/-- The state returned by `MemberAddUpdate`, entered with the lock held. -/
theorem MemberAddUpdate_unlocked (g : GuildState) (newMember : Member) :
    g.MemberAddUpdate false newMember =
      .ok { g with
        Members := g.Members.insert newMember.User.ID
          (match g.Members newMember.User.ID with
            | some existing =>
              { existing with
                Member := some (match existing.Member with
                  | none => newMember
                  | some m => GuildState.MemberAddUpdate.patch m newMember) }
            | none => { Member := some newMember, Presence := none }) } := by
  unfold GuildState.MemberAddUpdate
  rw [withLock_false]
  cases g.Members newMember.User.ID with
  | none => rfl
  | some existing =>
    obtain ⟨member, presence⟩ := existing
    cases member <;> rfl

/-- The state returned by `PresenceAddUpdate`, entered with the lock held. -/
theorem PresenceAddUpdate_unlocked (g : GuildState) (newPresence : Presence) :
    g.PresenceAddUpdate false newPresence =
      .ok { g with
        Members := g.Members.insert newPresence.User.ID
          (match g.Members newPresence.User.ID with
            | some existing =>
              { existing with
                Presence := some (match existing.Presence with
                  | none => newPresence
                  | some p => GuildState.PresenceAddUpdate.patch p newPresence) }
            | none => { Member := none, Presence := some newPresence }) } := by
  unfold GuildState.PresenceAddUpdate
  rw [withLock_false]
  cases g.Members newPresence.User.ID with
  | none => rfl
  | some existing =>
    obtain ⟨member, presence⟩ := existing
    cases presence <;> rfl

/-- A replay loop whose every step returns and re-establishes an invariant of the
elements replayed so far returns, with the invariant of all elements. -/
theorem foldlM_invariant {σ α : Type} (f : σ → α → Except Fault σ)
    (Inv : List α → σ → Prop)
    (hstep : ∀ done s a, Inv done s → ∃ s', f s a = .ok s' ∧ Inv (done ++ [a]) s') :
    ∀ (l done : List α) (s : σ), Inv done s →
      ∃ s', l.foldlM f s = .ok s' ∧ Inv (done ++ l) s' := by
  intro l
  induction l with
  | nil =>
    intro done s h
    exact ⟨s, rfl, by simpa using h⟩
  | cons a rest ih =>
    intro done s h
    obtain ⟨s1, h1, hinv1⟩ := hstep done s a h
    obtain ⟨s2, h2, hinv2⟩ := ih (done ++ [a]) s1 hinv1
    refine ⟨s2, ?_, by simpa using hinv2⟩
    simp only [List.foldlM_cons, bind, Except.bind, h1]
    exact h2

theorem GoMap.insert_isSome {V : Type} (m : GoMap V) (k x : String) (v : V) :
    (GoMap.insert m k v x).isSome ↔ x = k ∨ (m x).isSome := by
  by_cases hx : x = k
  · simp [GoMap.insert, hx]
  · simp [GoMap.insert, hx]

/-- C16: construction replay.  `NewGuildState` returns an unlocked aggregate that
stores the three configuration values as given; the keys of its
channel map are exactly the IDs of the snapshot's channel list, and every channel
entry has an empty message sequence; the keys of its member map are exactly the user
IDs of the snapshot's member list and presence list; every user of the member list
has an entry with a membership half, and every user of the presence list has an
entry with a presence half. -/
theorem construction_replay (guild : Guild) (maxMessages : Int)
    (maxMessageDuration : Duration) (removeDeletedMessages : Bool) :
    ∃ g, NewGuildState guild maxMessages maxMessageDuration removeDeletedMessages = .ok g ∧
      (∀ id, (g.Channels id).isSome ↔
        id ∈ (Slice.toList guild.Channels).map fun c => c.ID) ∧
      (∀ id ch, g.Channels id = some ch → ch.Messages = []) ∧
      (∀ id, (g.Members id).isSome ↔
        (id ∈ (Slice.toList guild.Members).map fun m => m.User.ID) ∨
          id ∈ (Slice.toList guild.Presences).map fun p => p.User.ID) ∧
      (∀ m ∈ Slice.toList guild.Members,
        ∃ e, g.Members m.User.ID = some e ∧ e.Member.isSome = true) ∧
      (∀ p ∈ Slice.toList guild.Presences,
        ∃ e, g.Members p.User.ID = some e ∧ e.Presence.isSome = true) ∧
      (g.maxMessages = maxMessages ∧ g.maxMessageDuration = maxMessageDuration ∧
        g.removeDeletedMessages = removeDeletedMessages) ∧
      g.mu = RWMutex.free := by
  -- replay of the channel list
  obtain ⟨g1, hrun1, hmu1, hguild1, hmem1, hk1, hd1, hr1, hkeys1, hempty1⟩ :=
    foldlM_invariant
      (fun (st : GuildState) (channel : Channel) =>
        (st.ChannelAddUpdate false channel).map Prod.snd)
      (fun done s => s.mu = RWMutex.free ∧ s.Guild = guild ∧ s.Members = GoMap.empty ∧
        s.maxMessages = maxMessages ∧ s.maxMessageDuration = maxMessageDuration ∧
        s.removeDeletedMessages = removeDeletedMessages ∧
        (∀ id, (s.Channels id).isSome ↔ id ∈ done.map fun c => c.ID) ∧
        (∀ id ch, s.Channels id = some ch → ch.Messages = []))
      (by
        intro done s a ⟨h1, h2, h3, h4, h5, h6, h7, h8⟩
        refine ⟨?_, ?_, ?_⟩
        rotate_left
        · exact ChannelAddUpdate_unlocked_state s a
        refine ⟨h1, h2, h3, h4, h5, h6, ?_, ?_⟩
        · intro id
          simp only [Prod.snd]
          rw [GoMap.insert_isSome, h7 id]
          simp only [List.map_append, List.map_cons, List.map_nil, List.mem_append,
            List.mem_singleton]
          exact or_comm
        · intro id ch hch
          simp only [Prod.snd] at hch
          by_cases hid : id = a.ID
          · subst hid
            rw [GoMap.insert_self] at hch
            cases hex : s.Channels a.ID with
            | none =>
              rw [hex] at hch
              cases hch
              rfl
            | some existing =>
              rw [hex] at hch
              cases hch
              exact h8 a.ID existing hex
          · rw [GoMap.insert_other _ _ _ _ hid] at hch
            exact h8 id ch hch)
      (Slice.toList guild.Channels) []
      { mu := RWMutex.free, Guild := guild, Members := GoMap.empty, Channels := GoMap.empty,
        maxMessages := maxMessages, maxMessageDuration := maxMessageDuration,
        removeDeletedMessages := removeDeletedMessages }
      ⟨rfl, rfl, rfl, rfl, rfl, rfl, by intro id; simp [GoMap.empty],
        by intro id ch h; simp [GoMap.empty] at h⟩
  -- replay of the member list
  obtain ⟨g2, hrun2, hmu2, hguild2, hch2, hk2, hd2, hr2, hkeys2, hhalf2⟩ :=
    foldlM_invariant
      (fun (st : GuildState) (member : Member) => st.MemberAddUpdate false member)
      (fun done s => s.mu = RWMutex.free ∧ s.Guild = guild ∧ s.Channels = g1.Channels ∧
        s.maxMessages = maxMessages ∧ s.maxMessageDuration = maxMessageDuration ∧
        s.removeDeletedMessages = removeDeletedMessages ∧
        (∀ id, (s.Members id).isSome ↔ id ∈ done.map fun m => m.User.ID) ∧
        (∀ id e, s.Members id = some e → e.Member.isSome = true))
      (by
        intro done s a ⟨h1, h2, h3, h4, h5, h6, h7, h8⟩
        refine ⟨?_, ?_, ?_⟩
        rotate_left
        · exact MemberAddUpdate_unlocked s a
        refine ⟨h1, h2, h3, h4, h5, h6, ?_, ?_⟩
        · intro id
          simp only []
          rw [GoMap.insert_isSome, h7 id]
          simp only [List.map_append, List.map_cons, List.map_nil, List.mem_append,
            List.mem_singleton]
          exact or_comm
        · intro id e he
          simp only [] at he
          by_cases hid : id = a.User.ID
          · subst hid
            rw [GoMap.insert_self] at he
            cases hex : s.Members a.User.ID with
            | none =>
              rw [hex] at he
              cases he
              rfl
            | some existing =>
              rw [hex] at he
              cases he
              rfl
          · rw [GoMap.insert_other _ _ _ _ hid] at he
            exact h8 id e he)
      (Slice.toList guild.Members) [] g1
      ⟨hmu1, hguild1, rfl, hk1, hd1, hr1, by intro id; simp [hmem1, GoMap.empty],
        by intro id e h; simp [hmem1, GoMap.empty] at h⟩
  -- replay of the presence list
  obtain ⟨g3, hrun3, hmu3, hguild3, hch3, hk3, hd3, hr3, hkeys3, hmhalf3, hphalf3⟩ :=
    foldlM_invariant
      (fun (st : GuildState) (presence : Presence) => st.PresenceAddUpdate false presence)
      (fun done s => s.mu = RWMutex.free ∧ s.Guild = guild ∧ s.Channels = g1.Channels ∧
        s.maxMessages = maxMessages ∧ s.maxMessageDuration = maxMessageDuration ∧
        s.removeDeletedMessages = removeDeletedMessages ∧
        (∀ id, (s.Members id).isSome ↔
          (id ∈ (Slice.toList guild.Members).map fun m => m.User.ID) ∨
            id ∈ done.map fun p => p.User.ID) ∧
        (∀ m ∈ Slice.toList guild.Members,
          ∃ e, s.Members m.User.ID = some e ∧ e.Member.isSome = true) ∧
        (∀ p ∈ done, ∃ e, s.Members p.User.ID = some e ∧ e.Presence.isSome = true))
      (by
        intro done s a ⟨h1, h2, h3, h4, h5, h6, h7, h8, h9⟩
        have hsame : ∀ id e, s.Members id = some e →
            ∃ e', GoMap.insert s.Members a.User.ID
                (match s.Members a.User.ID with
                  | some existing =>
                    { existing with
                      Presence := some (match existing.Presence with
                        | none => a
                        | some p => GuildState.PresenceAddUpdate.patch p a) }
                  | none => { Member := none, Presence := some a }) id = some e' ∧
              e'.Member = e.Member ∧ (e.Presence.isSome = true → e'.Presence.isSome = true) := by
          intro id e he
          by_cases hid : id = a.User.ID
          · subst hid
            rw [GoMap.insert_self, he]
            exact ⟨_, rfl, rfl, fun _ => rfl⟩
          · rw [GoMap.insert_other _ _ _ _ hid]
            exact ⟨e, he, rfl, fun h => h⟩
        refine ⟨?_, ?_, ?_⟩
        rotate_left
        · exact PresenceAddUpdate_unlocked s a
        refine ⟨h1, h2, h3, h4, h5, h6, ?_, ?_, ?_⟩
        · intro id
          simp only []
          rw [GoMap.insert_isSome, h7 id]
          simp only [List.map_append, List.map_cons, List.map_nil, List.mem_append,
            List.mem_singleton]
          tauto
        · intro m hm
          obtain ⟨e, he, hhalf⟩ := h8 m hm
          obtain ⟨e', he', hm', _⟩ := hsame _ e he
          exact ⟨e', he', by rw [hm']; exact hhalf⟩
        · intro p hp
          rcases List.mem_append.mp hp with hp | hp
          · obtain ⟨e, he, hhalf⟩ := h9 p hp
            obtain ⟨e', he', _, hp'⟩ := hsame _ e he
            exact ⟨e', he', hp' hhalf⟩
          · simp only [List.mem_singleton] at hp
            subst hp
            simp only []
            rw [GoMap.insert_self]
            cases s.Members p.User.ID with
            | none => exact ⟨_, rfl, rfl⟩
            | some existing => exact ⟨_, rfl, rfl⟩)
      (Slice.toList guild.Presences) [] g2
      ⟨hmu2, hguild2, hch2, hk2, hd2, hr2, by intro id; simp [hkeys2 id],
        by
          intro m hm
          have hsome : (g2.Members m.User.ID).isSome := by
            rw [hkeys2]
            simp only [List.nil_append]
            exact List.mem_map_of_mem _ hm
          obtain ⟨e, he⟩ := Option.isSome_iff_exists.mp hsome
          exact ⟨e, he, hhalf2 _ e he⟩,
        by intro p hp; cases hp⟩
  refine ⟨g3, ?_, ?_, ?_, ?_, hmhalf3, ?_, ⟨hk3, hd3, hr3⟩, hmu3⟩
  · simp only [NewGuildState, bind, Except.bind]
    rw [hrun1]
    simp only []
    rw [hrun2]
    exact hrun3
  · intro id
    rw [hch3]
    simpa using hkeys1 id
  · intro id ch h
    rw [hch3] at h
    exact hempty1 id ch h
  · intro id
    simpa using hkeys3 id
  · intro p hp
    exact hphalf3 p (by simpa using hp)

/-! ## Calls that lock -/

/-- A locking call on a mutex that is held does not return. -/
theorem withLock_blocked (g : GuildState) (body : GuildState → Except Fault GuildState)
    (h : ¬ (g.mu.writer = false ∧ g.mu.readers = 0)) :
    withLock true g body = .error .deadlock := by
  simp only [withLock, GuildState.Lock, if_true, if_neg h, bind, Except.bind]

theorem withLockRet_blocked {α : Type} (g : GuildState)
    (body : GuildState → Except Fault (α × GuildState))
    (h : ¬ (g.mu.writer = false ∧ g.mu.readers = 0)) :
    withLockRet true g body = .error .deadlock := by
  simp only [withLockRet, GuildState.Lock, if_true, if_neg h, bind, Except.bind]

theorem free_of_parts (g : GuildState) (h : g.mu.writer = false ∧ g.mu.readers = 0) :
    g.mu = RWMutex.free := by
  cases hmu : g.mu with
  | mk w r =>
    rw [hmu] at h
    simp only [] at h
    simp [RWMutex.free, h.1, h.2]

theorem GuildUpdate_unlocked (g : GuildState) (newGuild : Guild) :
    ∃ G, g.GuildUpdate false newGuild = .ok { g with Guild := G } := by
  unfold GuildState.GuildUpdate
  rw [withLock_false]
  exact ⟨_, rfl⟩

theorem RoleRemove_unlocked (g : GuildState) (id : String) :
    ∃ G, g.RoleRemove false id = .ok { g with Guild := G } := by
  unfold GuildState.RoleRemove
  rw [withLock_false]
  cases firstIdx (fun v : Role => v.ID == id) (Slice.toList g.Guild.Roles) with
  | none => exact ⟨g.Guild, rfl⟩
  | some i => exact ⟨_, rfl⟩

/-- A call that returns also returns, in the same state, when it is made with the
lock already held. -/
theorem Op.run_ok_unlocked (parse : String → Time) (g g' : GuildState) (op : Op)
    (h : op.run parse g = .ok g') : (Op.unlocked op).run parse g = .ok g' := by
  by_cases hfree : g.mu.writer = false ∧ g.mu.readers = 0
  · have hf : ∀ lock : Bool, lock = true → g.mu = RWMutex.free :=
      fun _ _ => free_of_parts g hfree
    cases op with
    | guildUpdate lock newGuild =>
      simpa only [Op.run, Op.unlocked, GuildUpdate_lock g lock newGuild (hf lock)] using h
    | memberAddUpdate lock newMember =>
      simpa only [Op.run, Op.unlocked, MemberAddUpdate_lock g lock newMember (hf lock)] using h
    | memberRemove lock id =>
      simp only [Op.run, Op.unlocked, GuildState.MemberRemove] at h ⊢
      rwa [withLock_eq_body lock g (fun _ _ => rfl) (hf lock)] at h
    | presenceAddUpdate lock newPresence =>
      simpa only [Op.run, Op.unlocked, PresenceAddUpdate_lock g lock newPresence (hf lock)]
        using h
    | channelAddUpdate lock newChannel =>
      simpa only [Op.run, Op.unlocked, ChannelAddUpdate_lock g lock newChannel (hf lock)]
        using h
    | channelRemove lock id =>
      simp only [Op.run, Op.unlocked, GuildState.ChannelRemove] at h ⊢
      rwa [withLock_eq_body lock g (fun _ _ => rfl) (hf lock)] at h
    | roleAddUpdate lock newRole =>
      simpa only [Op.run, Op.unlocked, RoleAddUpdate_lock g lock newRole (hf lock)] using h
    | roleRemove lock id =>
      simpa only [Op.run, Op.unlocked, RoleRemove_lock g lock id (hf lock)] using h
    | voiceStateUpdate lock update =>
      simpa only [Op.run, Op.unlocked, VoiceStateUpdate_lock g lock update (hf lock)] using h
    | messageAddUpdate now lock msg =>
      simpa only [Op.run, Op.unlocked, MessageAddUpdate_lock g parse now lock msg (hf lock)]
        using h
    | messageRemove lock channelID messageID =>
      cases lock with
      | false => exact h
      | true =>
        simp only [Op.run, MessageRemove_locked] at h
        cases h
  · cases op with
    | guildUpdate lock newGuild =>
      cases lock with
      | false => exact h
      | true =>
        simp only [Op.run, GuildState.GuildUpdate, withLock_blocked g _ hfree] at h
        cases h
    | memberAddUpdate lock newMember =>
      cases lock with
      | false => exact h
      | true =>
        simp only [Op.run, GuildState.MemberAddUpdate, withLock_blocked g _ hfree] at h
        cases h
    | memberRemove lock id =>
      cases lock with
      | false => exact h
      | true =>
        simp only [Op.run, GuildState.MemberRemove, withLock_blocked g _ hfree] at h
        cases h
    | presenceAddUpdate lock newPresence =>
      cases lock with
      | false => exact h
      | true =>
        simp only [Op.run, GuildState.PresenceAddUpdate, withLock_blocked g _ hfree] at h
        cases h
    | channelAddUpdate lock newChannel =>
      cases lock with
      | false => exact h
      | true =>
        simp only [Op.run, GuildState.ChannelAddUpdate, withLockRet_blocked g _ hfree,
          Except.map] at h
        cases h
    | channelRemove lock id =>
      cases lock with
      | false => exact h
      | true =>
        simp only [Op.run, GuildState.ChannelRemove, withLock_blocked g _ hfree] at h
        cases h
    | roleAddUpdate lock newRole =>
      cases lock with
      | false => exact h
      | true =>
        simp only [Op.run, GuildState.RoleAddUpdate, withLock_blocked g _ hfree] at h
        cases h
    | roleRemove lock id =>
      cases lock with
      | false => exact h
      | true =>
        simp only [Op.run, GuildState.RoleRemove, withLock_blocked g _ hfree] at h
        cases h
    | voiceStateUpdate lock update =>
      cases lock with
      | false => exact h
      | true =>
        simp only [Op.run, GuildState.VoiceStateUpdate, withLock_blocked g _ hfree] at h
        cases h
    | messageAddUpdate now lock msg =>
      cases lock with
      | false => exact h
      | true =>
        simp only [Op.run, GuildState.MessageAddUpdate, withLock_blocked g _ hfree] at h
        cases h
    | messageRemove lock channelID messageID =>
      cases lock with
      | false => exact h
      | true =>
        simp only [Op.run, MessageRemove_locked] at h
        cases h

/-- An invariant of the single calls is an invariant of the sequences of calls. -/
theorem runOps_invariant (parse : String → Time) (Inv : GuildState → Prop)
    (hstep : ∀ (op : Op) (g g' : GuildState), Inv g → op.run parse g = .ok g' → Inv g') :
    ∀ (ops : List Op) (g g' : GuildState), Inv g → runOps parse ops g = .ok g' → Inv g' := by
  intro ops
  induction ops with
  | nil =>
    intro g g' hinv h
    simp only [runOps, Except.ok.injEq] at h
    exact h ▸ hinv
  | cons op rest ih =>
    intro g g' hinv h
    simp only [runOps, bind, Except.bind] at h
    cases h1 : op.run parse g with
    | error e => rw [h1] at h; cases h
    | ok g1 =>
      rw [h1] at h
      exact ih g1 g' (hstep op g g1 hinv h1) h

/-- C17 (the code departs from the claim): on an unlocked aggregate, `MessageRemove`
called with `lock = true` takes the write lock and then looks the channel up with
`lock = true` again, which asks for the read lock of the mutex that is held: the
call does not return.  The lookup made as already locked on the locked aggregate
returns, and so do the composite calls `RoleAddUpdate` and `VoiceStateUpdate`, which
leave the mutex released. -/
theorem message_remove_reacquires_the_mutex :
    Example.stored.mu = RWMutex.free ∧
    Example.stored.MessageRemove true "general" "m1" = .error .deadlock ∧
    (Example.stored.Lock.bind fun g => g.Channel true "general") = .error .deadlock ∧
    (Example.stored.Lock.bind fun g => g.Channel false "general") = .ok none ∧
    ((Example.stored.RoleAddUpdate true Example.role1New).map fun g => g.mu)
      = .ok RWMutex.free ∧
    ((Example.stored.VoiceStateUpdate true Example.leftVoice).map fun g => g.mu)
      = .ok RWMutex.free :=
  ⟨rfl, rfl, rfl, rfl, rfl, rfl⟩

/-! ## Voice-state uniqueness -/

theorem map_overwriteFirst {α : Type} (f : α → String) (u : String) (v : α) (hv : f v = u)
    (l : List α) : (overwriteFirst (fun x => f x == u) v l).map f = l.map f := by
  induction l with
  | nil => rfl
  | cons x xs ih =>
    by_cases hx : f x = u
    · simp [overwriteFirst, hx, hv]
    · have hx2 : (f x == u) = false := by simpa using hx
      simp [overwriteFirst, hx2, ih]

theorem splice_sublist {α : Type} (l : List α) (i : Nat) : (splice l i).Sublist l := by
  unfold splice
  rw [← List.eraseIdx_eq_take_drop_succ]
  exact List.eraseIdx_sublist l i

/-- C18: voice-state uniqueness.  If the voice-state list holds at most one entry per
user ID, `VoiceStateUpdate` returns, whatever the update, and the list still holds at
most one entry per user ID. -/
theorem voice_state_uniqueness (g : GuildState) (lock : Bool) (update : VoiceStateUpdate)
    (hnd : ((Slice.toList g.Guild.VoiceStates).map fun v => v.UserID).Nodup)
    (hfree : lock = true → g.mu = RWMutex.free) :
    ∃ g', g.VoiceStateUpdate lock update = .ok g' ∧
      ((Slice.toList g'.Guild.VoiceStates).map fun v => v.UserID).Nodup := by
  rw [VoiceStateUpdate_lock g lock update hfree, VoiceStateUpdate_unlocked]
  refine ⟨_, rfl, ?_⟩
  simp only []
  cases hleft : (if update.ChannelID = "" then
      firstIdx (fun state : VoiceState => state.UserID == update.UserID)
        (Slice.toList g.Guild.VoiceStates)
    else none) with
  | some i =>
    simp only [Slice.toList_some]
    exact hnd.sublist ((splice_sublist _ i).map _)
  | none =>
    simp only []
    cases hfind : (Slice.toList g.Guild.VoiceStates).find?
        (fun v => v.UserID == update.UserID) with
    | none =>
      simp only [Slice.toList_append, List.map_append, List.map_cons, List.map_nil]
      rw [List.nodup_append]
      refine ⟨hnd, List.nodup_singleton _, ?_⟩
      intro u hu hu2
      simp only [List.mem_singleton] at hu2
      subst hu2
      obtain ⟨v, hv, hvu⟩ := List.mem_map.mp hu
      have := List.find?_eq_none.mp hfind v hv
      simp [VoiceStateUpdate.UserID] at this
      exact this hvu
    | some w =>
      cases hvs : g.Guild.VoiceStates with
      | none => rw [hvs] at hfind; simp [Slice.toList] at hfind
      | some l =>
        rw [hvs] at hnd
        simp only [Slice.toList_some, Option.map_some'] at hnd ⊢
        rw [map_overwriteFirst (fun v : VoiceState => v.UserID) update.UserID
          update.VoiceState rfl l]
        exact hnd

/-- C18, on an instance: with `u2` and `u3` in voice, the update that moves `u2` to
another channel returns and leaves one entry for each of `u2` and `u3`. -/
theorem voice_state_uniqueness_witness :
    ∃ g', Example.inVoice.VoiceStateUpdate true { VoiceState := Example.voice "u2" "music" }
        = .ok g' ∧
      ((Slice.toList g'.Guild.VoiceStates).map fun v => v.UserID).Nodup :=
  voice_state_uniqueness Example.inVoice true { VoiceState := Example.voice "u2" "music" }
    (by decide) (fun _ => rfl)

/-! ## Effect of one call on the keyed collections -/

theorem MembersStep_of_eq (g g' : GuildState) (h : g'.Members = g.Members) :
    MembersStep g g' := by
  intro k e' he
  rw [h] at he
  exact ⟨fun m hm => Or.inr ⟨e', he, hm⟩, fun p hp => Or.inr ⟨e', p, he, hp, rfl⟩⟩

theorem ChannelsStep_of_eq (g g' : GuildState) (h : g'.Channels = g.Channels) :
    ChannelsStep g g' := by
  intro c ch' hc
  rw [h] at hc
  exact ⟨Or.inr ⟨ch', hc, rfl⟩, Or.inr ⟨ch', hc, fun hnd => hnd⟩⟩

theorem MessageRemove_loop_ids_sublist (rm : Bool) (id : String) (l : List MessageState) :
    ((GuildState.MessageRemove.loop rm id l).map fun m => m.Message.ID).Sublist
      (l.map fun m => m.Message.ID) := by
  induction l with
  | nil => simp [GuildState.MessageRemove.loop]
  | cons x xs ih =>
    unfold GuildState.MessageRemove.loop
    split
    · cases rm
      · simp
      · simp
    · simpa using ih

theorem addOrPatch_nodup (parse : String → Time) (k : Int) (ch : ChannelState)
    (msg : Message) (messages : List MessageState)
    (h : GuildState.MessageAddUpdate.addOrPatch parse k ch msg = .ok messages)
    (hnd : (ch.Messages.map fun m => m.Message.ID).Nodup) :
    (messages.map fun m => m.Message.ID).Nodup := by
  cases hfind : ch.Message msg.ID with
  | some e =>
    rw [addOrPatch_update parse k ch msg e hfind] at h
    cases h
    have hid : e.Message.ID = msg.ID := by
      have := List.find?_some hfind
      simpa using this
    rw [map_overwriteFirst (fun m : MessageState => m.Message.ID) msg.ID _ ?_ ch.Messages]
    · exact hnd
    · simp only [MessageState.ParseTimes]
      rw [(MessageAddUpdate_patch_fields e.Message msg).1, hid]
  | none =>
    have hfresh : msg.ID ∉ ch.Messages.map fun m => m.Message.ID := by
      intro hmem
      obtain ⟨m, hm, hmid⟩ := List.mem_map.mp hmem
      have := List.find?_eq_none.mp hfind m hm
      simp at this
      exact this hmid
    have hall : ((ch.Messages ++ [GuildState.MessageAddUpdate.newEntry parse msg]).map
        fun m => m.Message.ID).Nodup := by
      simp only [List.map_append, List.map_cons, List.map_nil]
      rw [List.nodup_append]
      refine ⟨hnd, List.nodup_singleton _, ?_⟩
      intro u hu hu2
      simp only [List.mem_singleton] at hu2
      subst hu2
      exact hfresh hu
    simp only [GuildState.MessageAddUpdate.addOrPatch, hfind, pure, Except.pure] at h
    split at h
    · split at h
      · cases h
      · cases h
        exact hall.sublist ((List.drop_sublist _ _).map _)
    · cases h
      exact hall

theorem MessageAddUpdate_failed (g : GuildState) (parse : String → Time) (now : Time)
    (msg : Message) (ch : ChannelState) (e : Fault)
    (h : g.Channels msg.ChannelID = some ch)
    (ha : GuildState.MessageAddUpdate.addOrPatch parse g.maxMessages ch msg = .error e) :
    g.MessageAddUpdate parse now false msg = .error e := by
  unfold GuildState.MessageAddUpdate
  rw [withLock_false]
  simp only [h, ha, bind, Except.bind]

theorem MemberAddUpdate_patch_user (m newMember : Member) :
    (GuildState.MemberAddUpdate.patch m newMember).User = newMember.User := by
  unfold GuildState.MemberAddUpdate.patch
  rfl

theorem PresenceAddUpdate_patch_user (p newPresence : Presence) :
    (GuildState.PresenceAddUpdate.patch p newPresence).User = p.User := by
  unfold GuildState.PresenceAddUpdate.patch
  simp only []
  split <;> rfl

theorem ChannelAddUpdate_patch_id (existing newChannel : Channel) :
    (GuildState.ChannelAddUpdate.patch existing newChannel).ID = newChannel.ID := by
  unfold GuildState.ChannelAddUpdate.patch
  simp only []
  split <;> split <;> rfl

theorem MembersStep_delete (g g' : GuildState) (id : String)
    (h : g'.Members = g.Members.delete id) : MembersStep g g' := by
  intro k e' he
  rw [h] at he
  by_cases hk : k = id
  · simp [GoMap.delete, hk] at he
  · simp only [GoMap.delete, if_neg hk] at he
    exact ⟨fun m hm => Or.inr ⟨e', he, hm⟩, fun p hp => Or.inr ⟨e', p, he, hp, rfl⟩⟩

theorem ChannelsStep_delete (g g' : GuildState) (id : String)
    (h : g'.Channels = g.Channels.delete id) : ChannelsStep g g' := by
  intro c ch' hc
  rw [h] at hc
  by_cases hk : c = id
  · simp [GoMap.delete, hk] at hc
  · simp only [GoMap.delete, if_neg hk] at hc
    exact ⟨Or.inr ⟨ch', hc, rfl⟩, Or.inr ⟨ch', hc, fun hnd => hnd⟩⟩

/-- A channel entry whose metadata is kept and whose message IDs stay pairwise
distinct may replace the entry under the same key. -/
theorem ChannelsStep_messages (g g' : GuildState) (c : String) (ch : ChannelState)
    (messages : List MessageState) (hc : g.Channels c = some ch)
    (h : g'.Channels = g.Channels.insert c { ch with Messages := messages })
    (hnd : (ch.Messages.map fun m => m.Message.ID).Nodup →
      (messages.map fun m => m.Message.ID).Nodup) : ChannelsStep g g' := by
  intro c2 ch' hc2
  rw [h] at hc2
  by_cases hk : c2 = c
  · subst hk
    rw [GoMap.insert_self] at hc2
    cases hc2
    exact ⟨Or.inr ⟨ch, hc, rfl⟩, Or.inr ⟨ch, hc, hnd⟩⟩
  · rw [GoMap.insert_other _ _ _ _ hk] at hc2
    exact ⟨Or.inr ⟨ch', hc2, rfl⟩, Or.inr ⟨ch', hc2, fun hnd => hnd⟩⟩

/-- What a call that returns when entered with the lock held does to the member and
channel entries. -/
theorem Op.run_effect (parse : String → Time) (op : Op) (g g' : GuildState)
    (h : (Op.unlocked op).run parse g = .ok g') : MembersStep g g' ∧ ChannelsStep g g' := by
  cases op with
  | guildUpdate lock newGuild =>
    obtain ⟨G, hG⟩ := GuildUpdate_unlocked g newGuild
    simp only [Op.unlocked, Op.run, hG, Except.ok.injEq] at h
    subst h
    exact ⟨MembersStep_of_eq _ _ rfl, ChannelsStep_of_eq _ _ rfl⟩
  | memberAddUpdate lock newMember =>
    simp only [Op.unlocked, Op.run, MemberAddUpdate_unlocked, Except.ok.injEq] at h
    subst h
    refine ⟨?_, ChannelsStep_of_eq _ _ rfl⟩
    intro k e' he
    simp only [] at he
    by_cases hk : k = newMember.User.ID
    · subst hk
      rw [GoMap.insert_self] at he
      cases hex : g.Members newMember.User.ID with
      | none =>
        rw [hex] at he
        cases he
        exact ⟨fun m hm => (by cases hm; exact Or.inl rfl), fun p hp => (by cases hp)⟩
      | some existing =>
        rw [hex] at he
        cases he
        refine ⟨?_, fun p hp => Or.inr ⟨existing, p, rfl, hp, rfl⟩⟩
        intro m hm
        simp only [Option.some.injEq] at hm
        subst hm
        left
        cases existing.Member with
        | none => rfl
        | some m0 => simp only [MemberAddUpdate_patch_user]
    · rw [GoMap.insert_other _ _ _ _ hk] at he
      exact ⟨fun m hm => Or.inr ⟨e', he, hm⟩, fun p hp => Or.inr ⟨e', p, he, hp, rfl⟩⟩
  | memberRemove lock id =>
    simp only [Op.unlocked, Op.run, GuildState.MemberRemove, withLock_false, pure, Except.pure,
      Except.ok.injEq] at h
    subst h
    exact ⟨MembersStep_delete _ _ id rfl, ChannelsStep_of_eq _ _ rfl⟩
  | presenceAddUpdate lock newPresence =>
    simp only [Op.unlocked, Op.run, PresenceAddUpdate_unlocked, Except.ok.injEq] at h
    subst h
    refine ⟨?_, ChannelsStep_of_eq _ _ rfl⟩
    intro k e' he
    simp only [] at he
    by_cases hk : k = newPresence.User.ID
    · subst hk
      rw [GoMap.insert_self] at he
      cases hex : g.Members newPresence.User.ID with
      | none =>
        rw [hex] at he
        cases he
        exact ⟨fun m hm => (by cases hm), fun p hp => (by cases hp; exact Or.inl rfl)⟩
      | some existing =>
        rw [hex] at he
        cases he
        refine ⟨fun m hm => Or.inr ⟨existing, rfl, hm⟩, ?_⟩
        intro p hp
        simp only [Option.some.injEq] at hp
        subst hp
        cases hpres : existing.Presence with
        | none => exact Or.inl rfl
        | some p0 =>
          right
          exact ⟨existing, p0, rfl, hpres, PresenceAddUpdate_patch_user p0 newPresence⟩
    · rw [GoMap.insert_other _ _ _ _ hk] at he
      exact ⟨fun m hm => Or.inr ⟨e', he, hm⟩, fun p hp => Or.inr ⟨e', p, he, hp, rfl⟩⟩
  | channelAddUpdate lock newChannel =>
    simp only [Op.unlocked, Op.run, ChannelAddUpdate_unlocked_state, Except.ok.injEq] at h
    subst h
    refine ⟨MembersStep_of_eq _ _ rfl, ?_⟩
    intro c ch' hc
    simp only [] at hc
    by_cases hk : c = newChannel.ID
    · subst hk
      rw [GoMap.insert_self] at hc
      cases hex : g.Channels newChannel.ID with
      | none =>
        rw [hex] at hc
        cases hc
        exact ⟨Or.inl rfl, Or.inl rfl⟩
      | some existing =>
        rw [hex] at hc
        cases hc
        exact ⟨Or.inl (ChannelAddUpdate_patch_id _ _), Or.inr ⟨existing, rfl, fun hnd => hnd⟩⟩
    · rw [GoMap.insert_other _ _ _ _ hk] at hc
      exact ⟨Or.inr ⟨ch', hc, rfl⟩, Or.inr ⟨ch', hc, fun hnd => hnd⟩⟩
  | channelRemove lock id =>
    simp only [Op.unlocked, Op.run, GuildState.ChannelRemove, withLock_false, pure, Except.pure,
      Except.ok.injEq] at h
    subst h
    exact ⟨MembersStep_of_eq _ _ rfl, ChannelsStep_delete _ _ id rfl⟩
  | roleAddUpdate lock newRole =>
    simp only [Op.unlocked, Op.run, RoleAddUpdate_unlocked, Except.ok.injEq] at h
    subst h
    exact ⟨MembersStep_of_eq _ _ rfl, ChannelsStep_of_eq _ _ rfl⟩
  | roleRemove lock id =>
    obtain ⟨G, hG⟩ := RoleRemove_unlocked g id
    simp only [Op.unlocked, Op.run, hG, Except.ok.injEq] at h
    subst h
    exact ⟨MembersStep_of_eq _ _ rfl, ChannelsStep_of_eq _ _ rfl⟩
  | voiceStateUpdate lock update =>
    simp only [Op.unlocked, Op.run, VoiceStateUpdate_unlocked, Except.ok.injEq] at h
    subst h
    exact ⟨MembersStep_of_eq _ _ rfl, ChannelsStep_of_eq _ _ rfl⟩
  | messageAddUpdate now lock msg =>
    simp only [Op.unlocked, Op.run] at h
    cases hc : g.Channels msg.ChannelID with
    | none =>
      rw [MessageAddUpdate_unknown g parse now msg hc] at h
      cases h
      exact ⟨MembersStep_of_eq _ _ rfl, ChannelsStep_of_eq _ _ rfl⟩
    | some ch =>
      cases ha : GuildState.MessageAddUpdate.addOrPatch parse g.maxMessages ch msg with
      | error e =>
        rw [MessageAddUpdate_failed g parse now msg ch e hc ha] at h
        cases h
      | ok messages =>
        rw [MessageAddUpdate_known g parse now msg ch messages hc ha] at h
        cases h
        refine ⟨MembersStep_of_eq _ _ rfl, ChannelsStep_messages _ _ msg.ChannelID ch _ hc rfl ?_⟩
        intro hnd
        have hm := addOrPatch_nodup parse g.maxMessages ch msg messages ha hnd
        split
        · exact hm
        · exact hm.sublist (((checkAge_suffix _ _ _ _).sublist).map _)
  | messageRemove lock channelID messageID =>
    simp only [Op.unlocked, Op.run, MessageRemove_unlocked, Except.ok.injEq] at h
    cases hc : g.Channels channelID with
    | none =>
      rw [hc] at h
      subst h
      exact ⟨MembersStep_of_eq _ _ rfl, ChannelsStep_of_eq _ _ rfl⟩
    | some ch =>
      rw [hc] at h
      subst h
      refine ⟨MembersStep_of_eq _ _ rfl, ChannelsStep_messages _ _ channelID ch _ hc rfl ?_⟩
      intro hnd
      exact hnd.sublist (MessageRemove_loop_ids_sublist _ _ _)

/-! ## Invariants of the reachable states -/

theorem runOps_append (parse : String → Time) (a b : List Op) (g : GuildState) :
    runOps parse (a ++ b) g = (runOps parse a g).bind (runOps parse b) := by
  induction a generalizing g with
  | nil => rfl
  | cons op rest ih =>
    simp only [List.cons_append, runOps, bind, Except.bind]
    cases op.run parse g with
    | error e => rfl
    | ok g1 => exact ih g1

theorem foldlM_eq_runOps {α : Type} (parse : String → Time) (mk : α → Op) (l : List α)
    (g : GuildState) :
    l.foldlM (fun st a => (mk a).run parse st) g = runOps parse (l.map mk) g := by
  induction l generalizing g with
  | nil => rfl
  | cons a rest ih =>
    simp only [List.foldlM_cons, List.map_cons, runOps, bind, Except.bind]
    cases (mk a).run parse g with
    | error e => rfl
    | ok g1 => exact ih g1

/-- The constructor is the replay of the snapshot's lists on the aggregate with
empty keyed collections. -/
theorem NewGuildState_eq_runOps (parse : String → Time) (guild : Guild) (maxMessages : Int)
    (maxMessageDuration : Duration) (removeDeletedMessages : Bool) :
    NewGuildState guild maxMessages maxMessageDuration removeDeletedMessages =
      runOps parse (replayOps guild)
        { mu := RWMutex.free, Guild := guild, Members := GoMap.empty, Channels := GoMap.empty,
          maxMessages := maxMessages, maxMessageDuration := maxMessageDuration,
          removeDeletedMessages := removeDeletedMessages } := by
  unfold replayOps
  have hsplit : runOps parse ((Slice.toList guild.Members).map (Op.memberAddUpdate false) ++
      (Slice.toList guild.Presences).map (Op.presenceAddUpdate false)) =
      fun s => (runOps parse ((Slice.toList guild.Members).map (Op.memberAddUpdate false)) s).bind
        (runOps parse ((Slice.toList guild.Presences).map (Op.presenceAddUpdate false))) :=
    funext (runOps_append parse _ _)
  have hp : runOps parse ((Slice.toList guild.Presences).map (Op.presenceAddUpdate false)) =
      fun s => (Slice.toList guild.Presences).foldlM
        (fun st a => (Op.presenceAddUpdate false a).run parse st) s :=
    funext fun s => (foldlM_eq_runOps parse (Op.presenceAddUpdate false) _ s).symm
  rw [runOps_append, hsplit, ← foldlM_eq_runOps]
  simp only [← foldlM_eq_runOps, hp]
  rfl

theorem MessageIDsUnique_step (parse : String → Time) (op : Op) (g g' : GuildState)
    (hinv : MessageIDsUnique g) (h : op.run parse g = .ok g') : MessageIDsUnique g' := by
  obtain ⟨_, hch⟩ := Op.run_effect parse op g g' (Op.run_ok_unlocked parse g g' op h)
  intro c ch' hc
  rcases (hch c ch' hc).2 with hnil | ⟨ch, hold, hnd⟩
  · rw [hnil]
    exact List.nodup_nil
  · exact hnd (hinv c ch hold)

theorem KeyConsistent_step (parse : String → Time) (op : Op) (g g' : GuildState)
    (hinv : KeyConsistent g) (h : op.run parse g = .ok g') : KeyConsistent g' := by
  obtain ⟨hmem, hch⟩ := Op.run_effect parse op g g' (Op.run_ok_unlocked parse g g' op h)
  refine ⟨?_, ?_⟩
  · intro k e' he
    obtain ⟨hm, hp⟩ := hmem k e' he
    refine ⟨?_, ?_⟩
    · intro m hme
      rcases hm m hme with hid | ⟨e, hold, hhalf⟩
      · exact hid
      · exact (hinv.1 k e hold).1 m hhalf
    · intro p hpe
      rcases hp p hpe with hid | ⟨e, p0, hold, hhalf, huser⟩
      · exact hid
      · rw [huser]
        exact (hinv.1 k e hold).2 p0 hhalf
  · intro c ch' hc
    rcases (hch c ch' hc).1 with hid | ⟨ch, hold, hmeta⟩
    · exact hid
    · rw [hmeta]
      exact hinv.2 c ch hold

theorem ids_at_most_one (l : List MessageState) (x : String)
    (hnd : (l.map fun m => m.Message.ID).Nodup) :
    (l.filter fun m => m.Message.ID == x).length ≤ 1 := by
  induction l with
  | nil => simp
  | cons a rest ih =>
    simp only [List.map_cons, List.nodup_cons] at hnd
    by_cases ha : a.Message.ID = x
    · have hrest : rest.filter (fun m => m.Message.ID == x) = [] := by
        rw [List.filter_eq_nil_iff]
        intro m hm hmx
        apply hnd.1
        rw [ha]
        simp only [beq_iff_eq] at hmx
        rw [← hmx]
        exact List.mem_map_of_mem _ hm
      simp [List.filter_cons, ha, hrest]
    · have ha2 : (a.Message.ID == x) = false := by simpa using ha
      simp only [List.filter_cons, ha2, Bool.false_eq_true, if_false]
      exact ih hnd.2

/-- C19: message-ID uniqueness.  (1) If the message IDs of every channel are pairwise
distinct, they still are in the state in which a `MessageAddUpdate` call returns
(update path, create path with count eviction, age check), in the state in which a
`MessageRemove` call returns (hard delete or tombstone), and in the state `g'`
reached by any sequence `ops` of calls of the entry points; there a lookup by
message ID identifies at most one entry.  (2) Every state `g1` reached from the
result `g0` of `NewGuildState`, whose channels are newly created, by a sequence of
calls has pairwise distinct message IDs in every channel, and a lookup by message
ID identifies at most one entry. -/
theorem message_id_uniqueness (parse : String → Time) (g g' : GuildState) (ops : List Op)
    (guild : Guild) (maxMessages : Int) (maxMessageDuration : Duration)
    (removeDeletedMessages : Bool) (g0 g1 : GuildState) (ops1 : List Op)
    (hinv : MessageIDsUnique g) (hrun : runOps parse ops g = .ok g')
    (hnew : NewGuildState guild maxMessages maxMessageDuration removeDeletedMessages = .ok g0)
    (hrun1 : runOps parse ops1 g0 = .ok g1) :
    ((∀ now lock msg s, g.MessageAddUpdate parse now lock msg = .ok s → MessageIDsUnique s) ∧
      (∀ lock channelID messageID s,
        g.MessageRemove lock channelID messageID = .ok s → MessageIDsUnique s) ∧
      MessageIDsUnique g' ∧
      (∀ c ch x, g'.Channels c = some ch →
        (ch.Messages.filter fun m => m.Message.ID == x).length ≤ 1)) ∧
    (MessageIDsUnique g0 ∧ MessageIDsUnique g1 ∧
      (∀ c ch x, g1.Channels c = some ch →
        (ch.Messages.filter fun m => m.Message.ID == x).length ≤ 1)) := by
  have hall : ∀ (ops : List Op) (s s' : GuildState), MessageIDsUnique s →
      runOps parse ops s = .ok s' → MessageIDsUnique s' :=
    runOps_invariant parse MessageIDsUnique (MessageIDsUnique_step parse)
  have hg' : MessageIDsUnique g' := hall ops g g' hinv hrun
  have hg0 : MessageIDsUnique g0 := by
    rw [NewGuildState_eq_runOps parse] at hnew
    refine hall _ _ g0 ?_ hnew
    intro c ch hc
    simp [GoMap.empty] at hc
  have hg1 : MessageIDsUnique g1 := hall ops1 g0 g1 hg0 hrun1
  refine ⟨⟨?_, ?_, hg', ?_⟩, hg0, hg1, ?_⟩
  · intro now lock msg s hs
    exact MessageIDsUnique_step parse (Op.messageAddUpdate now lock msg) g s hinv hs
  · intro lock channelID messageID s hs
    exact MessageIDsUnique_step parse (Op.messageRemove lock channelID messageID) g s hinv hs
  · intro c ch x hc
    exact ids_at_most_one ch.Messages x (hg' c ch hc)
  · intro c ch x hc
    exact ids_at_most_one ch.Messages x (hg1 c ch hc)

/-- C20: key consistency.  In the result `g0` of `NewGuildState` and in every state
`g'` reached from it by a sequence of calls of the entry points (among them
`MemberAddUpdate`, `PresenceAddUpdate`, `MemberRemove`, `ChannelAddUpdate` and
`ChannelRemove`), the membership half of the member entry stored under key `k`,
when present, has user ID `k`, its presence half, when present, has user ID `k`,
and the channel entry stored under key `c` has metadata of ID `c`. -/
theorem key_consistency (parse : String → Time) (guild : Guild) (maxMessages : Int)
    (maxMessageDuration : Duration) (removeDeletedMessages : Bool) (ops : List Op)
    (g0 g' : GuildState)
    (hnew : NewGuildState guild maxMessages maxMessageDuration removeDeletedMessages = .ok g0)
    (hrun : runOps parse ops g0 = .ok g') :
    KeyConsistent g0 ∧ KeyConsistent g' ∧
      (∀ k e m, g'.Members k = some e → e.Member = some m → m.User.ID = k) ∧
      (∀ k e p, g'.Members k = some e → e.Presence = some p → p.User.ID = k) ∧
      (∀ c ch, g'.Channels c = some ch → ch.Channel.ID = c) := by
  have hall : ∀ (ops : List Op) (s s' : GuildState), KeyConsistent s →
      runOps parse ops s = .ok s' → KeyConsistent s' :=
    runOps_invariant parse KeyConsistent (KeyConsistent_step parse)
  have hg0 : KeyConsistent g0 := by
    rw [NewGuildState_eq_runOps parse] at hnew
    refine hall _ _ g0 ⟨?_, ?_⟩ hnew
    · intro k e he
      simp [GoMap.empty] at he
    · intro c ch hc
      simp [GoMap.empty] at hc
  have hg' : KeyConsistent g' := hall ops g0 g' hg0 hrun
  exact ⟨hg0, hg', fun k e m he hm => (hg'.1 k e he).1 m hm,
    fun k e p he hp => (hg'.1 k e he).2 p hp, hg'.2⟩

/-- C19, on an instance: the trace that edits `m4`, removes `m3` and adds `m6` on
the channel `[m3, m4, m5]` returns, and so does the addition of `m6` to the channel
of a newly constructed aggregate; in both final states the message IDs of every
channel are pairwise distinct. -/
theorem message_id_uniqueness_witness :
    ∃ g' g0 g1,
      runOps Example.parseTime Example.messageTrace
        (Example.cache [Example.entry "m3" "t95", Example.entry "m4" "t95",
          Example.entry "m5" "t100"] false) = .ok g' ∧
      NewGuildState Example.guild 3 0 false = .ok g0 ∧
      runOps Example.parseTime [Op.messageAddUpdate 100 true (Example.message "m6" "t100")] g0
        = .ok g1 ∧
      MessageIDsUnique g' ∧ MessageIDsUnique g1 := by
  refine ⟨_, _, _, rfl, rfl, rfl, ?_⟩
  have h := message_id_uniqueness Example.parseTime
    (Example.cache [Example.entry "m3" "t95", Example.entry "m4" "t95",
      Example.entry "m5" "t100"] false) _ Example.messageTrace Example.guild 3 0 false _ _
    [Op.messageAddUpdate 100 true (Example.message "m6" "t100")]
    (by
      intro c ch hc
      by_cases hcg : c = "general"
      · subst hcg
        simp only [Example.cache, GoMap.insert_self, Option.some.injEq] at hc
        subst hc
        decide
      · simp [Example.cache, GoMap.insert, GoMap.empty, hcg] at hc)
    rfl rfl rfl
  exact ⟨h.1.2.2.1, h.2.2.1⟩

/-- C20, on an instance: the aggregate constructed from a snapshot with channel
`general`, member `u1` and the presence of `u1`, and the state reached from it by
the trace of keyed updates, both store every entry under its own ID. -/
theorem key_consistency_witness :
    ∃ g0 g', NewGuildState Example.populated 3 0 false = .ok g0 ∧
      runOps Example.parseTime Example.keyedTrace g0 = .ok g' ∧
      KeyConsistent g0 ∧ KeyConsistent g' := by
  refine ⟨_, _, rfl, rfl, ?_⟩
  have h := key_consistency Example.parseTime Example.populated 3 0 false Example.keyedTrace
    _ _ rfl rfl
  exact ⟨h.1, h.2.1⟩

end Dstate
